import Mathlib

/-
Verification of the WebSocket hub, domain-event mapper, duplicate suppressor and
subscription handling of internal/server/server.go (headless-matrix-client).

Modelling conventions:
- Go strings are embedded as lists of characters (`Str`); Go byte-wise
  lexicographic string comparison coincides with the lexicographic order on the
  code-point lists for valid UTF-8, so `sort.Strings` is embedded as sorting by
  the lexicographic linear order on `List Char`.
- Go maps used as sets (`map[string]struct{}`) are embedded as lists with
  insert-if-absent, preserving first-insertion order; `map[K]V` caches are
  embedded as association lists.
- `time.Time` values are embedded as `Int` milliseconds; `time.Duration`
  constants are the corresponding millisecond counts.
-/

abbrev Str := List Char

/-- Go unicode.IsSpace, the predicate used by strings.TrimSpace: Latin-1 white
space plus the Unicode White_Space property. -/
def isSpaceRune (c : Char) : Bool :=
  c == ' ' || c == '\t' || c == '\n' || c == '\u000B' || c == '\u000C' || c == '\r' ||
  c == '\u0085' || c == '\u00A0' || c == '\u1680' ||
  (0x2000 ≤ c.toNat && c.toNat ≤ 0x200A) ||
  c == '\u2028' || c == '\u2029' || c == '\u202F' || c == '\u205F' || c == '\u3000'

/-- Embedding of Go strings.TrimSpace: drop white space from the front, then
from the back. -/
def trimSpace (s : Str) : Str :=
  (s.dropWhile isSpaceRune).rdropWhile isSpaceRune

theorem rdropWhile_append_eq {α : Type} (p : α → Bool) (l : List α) :
    ∃ u, (l.rdropWhile p) ++ u = l := by
  obtain ⟨t, ht⟩ := (List.dropWhile_suffix p : List.dropWhile p l.reverse <:+ l.reverse)
  refine ⟨t.reverse, ?_⟩
  have h := congrArg List.reverse ht
  simpa [List.rdropWhile] using h

theorem dropWhile_rdropWhile_self {α : Type} (p : α → Bool) (l : List α)
    (h : l.dropWhile p = l) : (l.rdropWhile p).dropWhile p = l.rdropWhile p := by
  cases l with
  | nil => simp
  | cons a tl =>
    have ha : ¬ p a := by
      have h0 := List.dropWhile_eq_self_iff.mp h (by simp)
      simpa using h0
    cases hl : (a :: tl).rdropWhile p with
    | nil => simp
    | cons b v =>
      obtain ⟨u, hu⟩ := rdropWhile_append_eq p (a :: tl)
      rw [hl] at hu
      have hb : b = a := by
        have := congrArg (fun t => t.head?) hu
        simpa using this
      subst hb
      simp [List.dropWhile_cons, ha]

theorem trimSpace_idem (s : Str) : trimSpace (trimSpace s) = trimSpace s := by
  show ((((s.dropWhile isSpaceRune).rdropWhile isSpaceRune).dropWhile
      isSpaceRune).rdropWhile isSpaceRune) = _
  rw [dropWhile_rdropWhile_self isSpaceRune _ (List.dropWhile_idempotent _ _),
    List.rdropWhile_idempotent]
  rfl

/-- Embedding of Go sort.Strings (ascending lexicographic order). -/
def sortStrs (l : List Str) : List Str :=
  l.insertionSort (· ≤ ·)

theorem sortStrs_sorted (l : List Str) : (sortStrs l).Sorted (· ≤ ·) :=
  List.sorted_insertionSort _ l

theorem sortStrs_perm (l : List Str) : List.Perm (sortStrs l) l :=
  List.perm_insertionSort _ l

theorem sortStrs_mem {l : List Str} {x : Str} : x ∈ sortStrs l ↔ x ∈ l :=
  (sortStrs_perm l).mem_iff

theorem sortStrs_nodup {l : List Str} (d : l.Nodup) : (sortStrs l).Nodup :=
  (sortStrs_perm l).symm.nodup d

theorem sortStrs_eq_self {l : List Str} (h : l.Sorted (· ≤ ·)) : sortStrs l = l :=
  List.eq_of_perm_of_sorted (sortStrs_perm l) (sortStrs_sorted l) h

theorem sortStrs_ext {l₁ l₂ : List Str} (d₁ : l₁.Nodup) (d₂ : l₂.Nodup)
    (h : ∀ x, x ∈ l₁ ↔ x ∈ l₂) : sortStrs l₁ = sortStrs l₂ :=
  List.eq_of_perm_of_sorted
    (((sortStrs_perm l₁).trans ((List.perm_ext_iff_of_nodup d₁ d₂).mpr h)).trans
      (sortStrs_perm l₂).symm)
    (sortStrs_sorted l₁) (sortStrs_sorted l₂)

theorem sortStrs_idem (l : List Str) : sortStrs (sortStrs l) = sortStrs l :=
  sortStrs_eq_self (sortStrs_sorted l)

/-- The wildcard subscription token "*" (server.go:615). -/
def wsWildcardSubscriptionChatID : Str := ['*']

/-- One iteration of the normalization loop of normalizeWSChatIDs
(server.go:1111-1124): trim, drop empties, record the wildcard, and append the
ID unless it was already seen (first-occurrence deduplication; the Go map
`seen` always holds exactly the IDs appended to `normalized`). -/
def normalizeWSChatIDsStep (acc : List Str × Bool) (rawChatID : Str) : List Str × Bool :=
  let chatID := trimSpace rawChatID
  if chatID = [] then acc
  else
    let hasWildcard := acc.2 || decide (chatID = wsWildcardSubscriptionChatID)
    if chatID ∈ acc.1 then (acc.1, hasWildcard)
    else (acc.1 ++ [chatID], hasWildcard)

/-- Embedding of normalizeWSChatIDs (server.go:1103-1135). Returns the
normalized list and the validity flag. -/
def normalizeWSChatIDs (chatIDs : List Str) : List Str × Bool :=
  if chatIDs.length = 0 then ([], true)
  else
    let folded := chatIDs.foldl normalizeWSChatIDsStep ([], false)
    if folded.2 then
      if folded.1.length ≠ 1 ∨ folded.1.head? ≠ some wsWildcardSubscriptionChatID then
        ([], false)
      else
        ([wsWildcardSubscriptionChatID], true)
    else
      (sortStrs folded.1, true)

/-- The trimmed, non-empty IDs of a raw chatIDs list, in order: the
specification-side notion of the "set of trimmed non-empty IDs" carried by a
`subscriptions.set` payload. -/
def cleanedChatIDs (chatIDs : List Str) : List Str :=
  (chatIDs.map trimSpace).filter (fun x => !(x.isEmpty))

theorem cleanedChatIDs_cons (y : Str) (ys : List Str) :
    cleanedChatIDs (y :: ys)
      = if trimSpace y = [] then cleanedChatIDs ys else trimSpace y :: cleanedChatIDs ys := by
  by_cases h : trimSpace y = []
  · simp [cleanedChatIDs, h]
  · have : (trimSpace y).isEmpty = false := by
      cases ht : trimSpace y with
      | nil => exact absurd ht h
      | cons a t => rfl
    simp [cleanedChatIDs, h, this]

theorem cleanedChatIDs_mem {chatIDs : List Str} {x : Str} :
    x ∈ cleanedChatIDs chatIDs ↔ (∃ y ∈ chatIDs, trimSpace y = x) ∧ x ≠ [] := by
  induction chatIDs with
  | nil => simp [cleanedChatIDs]
  | cons y ys ih =>
    rw [cleanedChatIDs_cons]
    by_cases h : trimSpace y = []
    · rw [if_pos h, ih]
      constructor
      · rintro ⟨⟨z, hz, hzx⟩, hne⟩
        exact ⟨⟨z, List.mem_cons_of_mem y hz, hzx⟩, hne⟩
      · rintro ⟨⟨z, hz, hzx⟩, hne⟩
        rcases List.mem_cons.mp hz with hz1 | hz1
        · exact absurd (by rw [← hzx, hz1, h]) hne
        · exact ⟨⟨z, hz1, hzx⟩, hne⟩
    · rw [if_neg h, List.mem_cons, ih]
      constructor
      · rintro (hx | ⟨⟨z, hz, hzx⟩, hne⟩)
        · exact ⟨⟨y, List.mem_cons_self y ys, hx.symm⟩, fun hxe => h (hx.symm.trans hxe)⟩
        · exact ⟨⟨z, List.mem_cons_of_mem y hz, hzx⟩, hne⟩
      · rintro ⟨⟨z, hz, hzx⟩, hne⟩
        rcases List.mem_cons.mp hz with hz1 | hz1
        · exact Or.inl (by rw [← hzx, hz1])
        · exact Or.inr ⟨⟨z, hz1, hzx⟩, hne⟩

theorem cleanedChatIDs_eq_self {l : List Str}
    (h : ∀ x ∈ l, trimSpace x = x ∧ x ≠ []) : cleanedChatIDs l = l := by
  induction l with
  | nil => rfl
  | cons y ys ih =>
    have hy := h y (List.mem_cons_self y ys)
    rw [cleanedChatIDs_cons, if_neg (hy.1.symm ▸ hy.2), hy.1,
      ih (fun x hx => h x (List.mem_cons_of_mem y hx))]

/-- Behavior of the normalization fold: the wildcard flag records whether the
wildcard occurs among the trimmed non-empty IDs, the accumulated list collects
exactly the previously-accumulated IDs plus the trimmed non-empty IDs, and
first-occurrence deduplication keeps it duplicate-free. -/
theorem foldl_normalizeWSChatIDsStep (l : List Str) : ∀ acc : List Str × Bool,
    (l.foldl normalizeWSChatIDsStep acc).2
        = (acc.2 || decide (wsWildcardSubscriptionChatID ∈ cleanedChatIDs l))
      ∧ (∀ x, x ∈ (l.foldl normalizeWSChatIDsStep acc).1 ↔ x ∈ acc.1 ∨ x ∈ cleanedChatIDs l)
      ∧ (acc.1.Nodup → (l.foldl normalizeWSChatIDsStep acc).1.Nodup) := by
  induction l with
  | nil => intro acc; simp [cleanedChatIDs]
  | cons y ys ih =>
    intro acc
    rw [List.foldl_cons]
    by_cases hy : trimSpace y = []
    · have hstep : normalizeWSChatIDsStep acc y = acc := by
        simp [normalizeWSChatIDsStep, hy]
      rw [hstep, cleanedChatIDs_cons, if_pos hy]
      exact ih acc
    · rw [cleanedChatIDs_cons, if_neg hy]
      by_cases hmem : trimSpace y ∈ acc.1
      · have hstep : normalizeWSChatIDsStep acc y
            = (acc.1, acc.2 || decide (trimSpace y = wsWildcardSubscriptionChatID)) := by
          simp [normalizeWSChatIDsStep, hy, hmem]
        rw [hstep]
        obtain ⟨h2, h1, hd⟩ := ih (acc.1, acc.2 || decide (trimSpace y = wsWildcardSubscriptionChatID))
        refine ⟨?_, ?_, hd⟩
        · rw [h2]
          by_cases hw : trimSpace y = wsWildcardSubscriptionChatID
          · simp [hw, List.mem_cons, Bool.or_assoc]
          · have hw4 : ¬(wsWildcardSubscriptionChatID = trimSpace y) := fun hh => hw hh.symm
            simp [hw, hw4, List.mem_cons, Bool.or_assoc]
        · intro x
          rw [h1 x]
          simp only [List.mem_cons]
          constructor
          · rintro (hx | hx)
            · exact Or.inl hx
            · exact Or.inr (Or.inr hx)
          · rintro (hx | hx | hx)
            · exact Or.inl hx
            · exact Or.inl (hx ▸ hmem)
            · exact Or.inr hx
      · have hstep : normalizeWSChatIDsStep acc y
            = (acc.1 ++ [trimSpace y],
                acc.2 || decide (trimSpace y = wsWildcardSubscriptionChatID)) := by
          simp [normalizeWSChatIDsStep, hy, hmem]
        rw [hstep]
        obtain ⟨h2, h1, hd⟩ := ih (acc.1 ++ [trimSpace y],
          acc.2 || decide (trimSpace y = wsWildcardSubscriptionChatID))
        refine ⟨?_, ?_, ?_⟩
        · rw [h2]
          by_cases hw : trimSpace y = wsWildcardSubscriptionChatID
          · simp [hw, List.mem_cons, Bool.or_assoc]
          · have hw4 : ¬(wsWildcardSubscriptionChatID = trimSpace y) := fun hh => hw hh.symm
            simp [hw, hw4, List.mem_cons, Bool.or_assoc]
        · intro x
          rw [h1 x]
          simp only [List.mem_append, List.mem_singleton, List.mem_cons]
          tauto
        · intro hnd
          exact hd (by
            rw [List.nodup_append]
            exact ⟨hnd, List.nodup_singleton _, by simpa using hmem⟩)

theorem eq_singleton_of_nodup_mem {l : List Str} {w : Str} (hd : l.Nodup)
    (hmem : w ∈ l) (hall : ∀ x ∈ l, x = w) : l = [w] := by
  cases l with
  | nil => cases hmem
  | cons a t =>
    have ha : a = w := hall a (List.mem_cons_self a t)
    subst ha
    cases t with
    | nil => rfl
    | cons b t2 =>
      have hb : b = a := hall b (List.mem_cons_of_mem a (List.mem_cons_self b t2))
      rw [List.nodup_cons] at hd
      exact absurd (hb ▸ List.mem_cons_self b t2) hd.1

theorem eq_singleton_iff_length_head {l : List Str} {w : Str} :
    (l.length = 1 ∧ l.head? = some w) ↔ l = [w] := by
  cases l with
  | nil => simp
  | cons a t =>
    cases t with
    | nil => simp [eq_comm]
    | cons b t2 => simp

theorem cleanedChatIDs_trimmed {l : List Str} {x : Str} (hx : x ∈ cleanedChatIDs l) :
    trimSpace x = x ∧ x ≠ [] := by
  obtain ⟨⟨y, _, hyx⟩, hne⟩ := cleanedChatIDs_mem.mp hx
  exact ⟨by rw [← hyx, trimSpace_idem], hne⟩

theorem cleanedChatIDs_nil_of (l : List Str) (h : l = []) : cleanedChatIDs l = [] := by
  rw [h]; rfl

/-- If the wildcard occurs among the trimmed non-empty IDs and every trimmed
non-empty ID is the wildcard, normalization yields the singleton wildcard
subscription. -/
theorem normalizeWSChatIDs_wildcard_all {l : List Str}
    (hw : wsWildcardSubscriptionChatID ∈ cleanedChatIDs l)
    (hall : ∀ x ∈ cleanedChatIDs l, x = wsWildcardSubscriptionChatID) :
    normalizeWSChatIDs l = ([wsWildcardSubscriptionChatID], true) := by
  have hlen : ¬(l.length = 0) := by
    intro h0
    rw [cleanedChatIDs_nil_of l (List.length_eq_zero.mp h0)] at hw
    cases hw
  obtain ⟨h2, h1, hd⟩ := foldl_normalizeWSChatIDsStep l ([], false)
  have hflag : (l.foldl normalizeWSChatIDsStep ([], false)).2 = true := by
    rw [h2]; simp [hw]
  have hsingle : (l.foldl normalizeWSChatIDsStep ([], false)).1
      = [wsWildcardSubscriptionChatID] := by
    refine eq_singleton_of_nodup_mem (hd (List.nodup_nil)) ?_ ?_
    · rw [h1]; exact Or.inr hw
    · intro x hx
      rcases (h1 x).mp hx with hx1 | hx1
      · cases hx1
      · exact hall x hx1
  rw [normalizeWSChatIDs, if_neg hlen]
  simp only [hflag, if_true, hsingle]
  simp

/-- If the wildcard occurs among the trimmed non-empty IDs together with some
other ID, normalization rejects the payload. -/
theorem normalizeWSChatIDs_wildcard_mixed {l : List Str}
    (hw : wsWildcardSubscriptionChatID ∈ cleanedChatIDs l)
    (hmix : ∃ x ∈ cleanedChatIDs l, x ≠ wsWildcardSubscriptionChatID) :
    normalizeWSChatIDs l = ([], false) := by
  have hlen : ¬(l.length = 0) := by
    intro h0
    rw [cleanedChatIDs_nil_of l (List.length_eq_zero.mp h0)] at hw
    cases hw
  obtain ⟨h2, h1, hd⟩ := foldl_normalizeWSChatIDsStep l ([], false)
  have hflag : (l.foldl normalizeWSChatIDsStep ([], false)).2 = true := by
    rw [h2]; simp [hw]
  have hnotsingle : ¬((l.foldl normalizeWSChatIDsStep ([], false)).1
      = [wsWildcardSubscriptionChatID]) := by
    intro hsing
    obtain ⟨x, hx, hxw⟩ := hmix
    have : x ∈ (l.foldl normalizeWSChatIDsStep ([], false)).1 := (h1 x).mpr (Or.inr hx)
    rw [hsing] at this
    exact hxw (List.mem_singleton.mp this)
  have hcond : (l.foldl normalizeWSChatIDsStep ([], false)).1.length ≠ 1
      ∨ (l.foldl normalizeWSChatIDsStep ([], false)).1.head?
          ≠ some wsWildcardSubscriptionChatID := by
    by_contra hc
    push_neg at hc
    exact hnotsingle (eq_singleton_iff_length_head.mp ⟨hc.1, hc.2⟩)
  rw [normalizeWSChatIDs, if_neg hlen]
  simp only [hflag, if_true, if_pos hcond]

/-- If the wildcard does not occur among the trimmed non-empty IDs,
normalization accepts and returns the sorted deduplication of those IDs. -/
theorem normalizeWSChatIDs_no_wildcard {l : List Str}
    (hw : wsWildcardSubscriptionChatID ∉ cleanedChatIDs l) :
    ∃ n, normalizeWSChatIDs l = (sortStrs n, true) ∧ n.Nodup
      ∧ (∀ x, x ∈ n ↔ x ∈ cleanedChatIDs l) := by
  by_cases hlen : l.length = 0
  · refine ⟨[], ?_, List.nodup_nil, ?_⟩
    · rw [normalizeWSChatIDs, if_pos hlen]; rfl
    · intro x
      rw [cleanedChatIDs_nil_of l (List.length_eq_zero.mp hlen)]
  · obtain ⟨h2, h1, hd⟩ := foldl_normalizeWSChatIDsStep l ([], false)
    have hflag : (l.foldl normalizeWSChatIDsStep ([], false)).2 = false := by
      rw [h2]; simp [hw]
    refine ⟨(l.foldl normalizeWSChatIDsStep ([], false)).1, ?_, hd List.nodup_nil, ?_⟩
    · rw [normalizeWSChatIDs, if_neg hlen]
      simp only [hflag]
      rfl
    · intro x
      rw [h1 x]
      simp

theorem normalizeWSChatIDs_idem {l r : List Str}
    (h : normalizeWSChatIDs l = (r, true)) : normalizeWSChatIDs r = (r, true) := by
  by_cases hw : wsWildcardSubscriptionChatID ∈ cleanedChatIDs l
  · by_cases hall : ∀ x ∈ cleanedChatIDs l, x = wsWildcardSubscriptionChatID
    · have hr : r = [wsWildcardSubscriptionChatID] := by
        have h0 := (normalizeWSChatIDs_wildcard_all hw hall).symm.trans h
        exact (Prod.mk.injEq _ _ _ _).mp h0 |>.1.symm
      rw [hr]
      decide
    · push_neg at hall
      have h0 := (normalizeWSChatIDs_wildcard_mixed hw hall).symm.trans h
      cases (Prod.mk.injEq _ _ _ _).mp h0 |>.2
  · obtain ⟨n, hn, hnd, hmem⟩ := normalizeWSChatIDs_no_wildcard hw
    have hr : r = sortStrs n := by
      have h0 := hn.symm.trans h
      exact ((Prod.mk.injEq _ _ _ _).mp h0).1.symm
    subst hr
    have helem : ∀ x ∈ sortStrs n, trimSpace x = x ∧ x ≠ [] := fun x hx =>
      cleanedChatIDs_trimmed ((hmem x).mp (sortStrs_mem.mp hx))
    have hclean : cleanedChatIDs (sortStrs n) = sortStrs n := cleanedChatIDs_eq_self helem
    have hw2 : wsWildcardSubscriptionChatID ∉ cleanedChatIDs (sortStrs n) := by
      rw [hclean]
      intro hww
      exact hw ((hmem _).mp (sortStrs_mem.mp hww))
    obtain ⟨n2, hn2, hnd2, hmem2⟩ := normalizeWSChatIDs_no_wildcard hw2
    rw [hn2]
    have hs : sortStrs n2 = sortStrs (sortStrs n) := by
      refine sortStrs_ext hnd2 (sortStrs_nodup hnd) ?_
      intro x
      rw [hmem2 x, hclean]
    rw [hs, sortStrs_idem]

theorem normalizeWSChatIDs_ext {l₁ l₂ : List Str}
    (h : ∀ x, x ∈ cleanedChatIDs l₁ ↔ x ∈ cleanedChatIDs l₂) :
    normalizeWSChatIDs l₁ = normalizeWSChatIDs l₂ := by
  by_cases hw : wsWildcardSubscriptionChatID ∈ cleanedChatIDs l₁
  · have hw2 : wsWildcardSubscriptionChatID ∈ cleanedChatIDs l₂ :=
      (h wsWildcardSubscriptionChatID).mp hw
    by_cases hall : ∀ x ∈ cleanedChatIDs l₁, x = wsWildcardSubscriptionChatID
    · have hall2 : ∀ x ∈ cleanedChatIDs l₂, x = wsWildcardSubscriptionChatID :=
        fun x hx => hall x ((h x).mpr hx)
      rw [normalizeWSChatIDs_wildcard_all hw hall,
        normalizeWSChatIDs_wildcard_all hw2 hall2]
    · push_neg at hall
      obtain ⟨x, hx, hxw⟩ := hall
      rw [normalizeWSChatIDs_wildcard_mixed hw ⟨x, hx, hxw⟩,
        normalizeWSChatIDs_wildcard_mixed hw2 ⟨x, (h x).mp hx, hxw⟩]
  · have hw2 : wsWildcardSubscriptionChatID ∉ cleanedChatIDs l₂ :=
      fun hh => hw ((h wsWildcardSubscriptionChatID).mpr hh)
    obtain ⟨n1, hn1, hd1, hm1⟩ := normalizeWSChatIDs_no_wildcard hw
    obtain ⟨n2, hn2, hd2, hm2⟩ := normalizeWSChatIDs_no_wildcard hw2
    rw [hn1, hn2,
      sortStrs_ext hd1 hd2 (fun x => by rw [hm1 x, h x, ← hm2 x])]

/-- C5: chatIDs normalization (trim whitespace, drop empty strings,
deduplicate, and sort lexicographically when the wildcard is absent) is
idempotent and order-independent: normalizing an already-normalized valid list
returns the same list; any two input lists with the same set of trimmed
non-empty IDs normalize identically; and ["room2","room1","room1"] normalizes
to ["room1","room2"]. -/
theorem normalizeWSChatIDs_idempotent_orderIndependent :
    (∀ l r : List Str, normalizeWSChatIDs l = (r, true) → normalizeWSChatIDs r = (r, true))
    ∧ (∀ l₁ l₂ : List Str, (∀ x, x ∈ cleanedChatIDs l₁ ↔ x ∈ cleanedChatIDs l₂) →
        normalizeWSChatIDs l₁ = normalizeWSChatIDs l₂)
    ∧ normalizeWSChatIDs ["room2".toList, "room1".toList, "room1".toList]
        = (["room1".toList, "room2".toList], true) :=
  ⟨fun _ _ h => normalizeWSChatIDs_idem h,
   fun _ _ h => normalizeWSChatIDs_ext h,
   by decide⟩

theorem normalizeWSChatIDs_idempotent_orderIndependent_witness :
    normalizeWSChatIDs ["room1".toList, "room2".toList]
        = (["room1".toList, "room2".toList], true)
    ∧ normalizeWSChatIDs ["room2".toList, "room1".toList]
        = normalizeWSChatIDs ["room1".toList, "room2".toList, "room1".toList] :=
  ⟨normalizeWSChatIDs_idempotent_orderIndependent.1
      ["room2".toList, "room1".toList, "room1".toList]
      ["room1".toList, "room2".toList]
      (by decide),
   normalizeWSChatIDs_idempotent_orderIndependent.2.1
      ["room2".toList, "room1".toList]
      ["room1".toList, "room2".toList, "room1".toList]
      (by
        have h1 : cleanedChatIDs ["room2".toList, "room1".toList]
            = ["room2".toList, "room1".toList] := by decide
        have h2 : cleanedChatIDs ["room1".toList, "room2".toList, "room1".toList]
            = ["room1".toList, "room2".toList, "room1".toList] := by decide
        intro x
        rw [h1, h2]
        simp only [List.mem_cons, List.not_mem_nil, or_false]
        tauto)⟩

/-- WS error code INVALID_PAYLOAD (server.go:613). -/
def wsErrorCodeInvalidPayload : Str := "INVALID_PAYLOAD".toList

/-- Server → client replies produced by the subscriptions.set arm of wsEvents. -/
inductive wsServerReply where
  | subscriptionsUpdated (requestID : Option Str) (chatIDs : List Str)
  | errorReply (requestID : Option Str) (code : Str) (message : Str)
deriving DecidableEq

/-- Per-connection client state (server.go:660-664): the sequence counter and
the stored subscription (the write mutex has no observable data content). -/
structure wsClientState where
  seq : Nat
  chatIDs : List Str
deriving DecidableEq

/-- Embedding of the subscriptions.set arm of wsEvents (server.go:1064-1081):
normalize the decoded chatIDs; if invalid, reply with an INVALID_PAYLOAD error
and perform no registry update; otherwise store the normalized subscription
and acknowledge with subscriptions.updated. -/
def handleSubscriptionsSet (state : wsClientState) (requestID : Option Str)
    (chatIDs : List Str) : wsClientState × wsServerReply :=
  let result := normalizeWSChatIDs chatIDs
  if result.2 = false then
    (state, .errorReply requestID wsErrorCodeInvalidPayload
      "chatIDs cannot combine the wildcard with specific IDs".toList)
  else
    ({ state with chatIDs := result.1 },
      .subscriptionsUpdated requestID result.1)

/-- C6: for every subscriptions.set command whose chatIDs carry the wildcard
together with at least one other distinct (trimmed, non-empty) ID, the server
replies with an INVALID_PAYLOAD error and the stored subscription is
unchanged. -/
theorem handleSubscriptionsSet_wildcard_mixed_invalid
    (state : wsClientState) (requestID : Option Str) (chatIDs : List Str)
    (hw : wsWildcardSubscriptionChatID ∈ cleanedChatIDs chatIDs)
    (hother : ∃ x ∈ cleanedChatIDs chatIDs, x ≠ wsWildcardSubscriptionChatID) :
    handleSubscriptionsSet state requestID chatIDs
      = (state, .errorReply requestID wsErrorCodeInvalidPayload
          "chatIDs cannot combine the wildcard with specific IDs".toList) := by
  rw [handleSubscriptionsSet, normalizeWSChatIDs_wildcard_mixed hw hother]
  rfl

theorem handleSubscriptionsSet_wildcard_mixed_invalid_witness :
    handleSubscriptionsSet ⟨0, []⟩ none ["*".toList, "room1".toList]
      = (⟨0, []⟩, .errorReply none wsErrorCodeInvalidPayload
          "chatIDs cannot combine the wildcard with specific IDs".toList) :=
  handleSubscriptionsSet_wildcard_mixed_invalid ⟨0, []⟩ none ["*".toList, "room1".toList]
    (by decide) ⟨"room1".toList, by decide, by decide⟩

/-- Matrix event type constants from the mautrix event package, as read by
mapSyncCompleteToDomainEvents. -/
def eventRedactionType : Str := "m.room.redaction".toList

def eventMessageType : Str := "m.room.message".toList

def eventStickerType : Str := "m.sticker".toList

def eventReactionType : Str := "m.reaction".toList

def stateMemberType : Str := "m.room.member".toList

def stateRoomNameType : Str := "m.room.name".toList

def stateRoomAvatarType : Str := "m.room.avatar".toList

def stateTopicType : Str := "m.room.topic".toList

def relReplace : Str := "m.replace".toList

/-- Domain event type constants (server.go:607-610). -/
def wsDomainTypeChatUpserted : Str := "chat.upserted".toList

def wsDomainTypeChatDeleted : Str := "chat.deleted".toList

def wsDomainTypeMessageUpserted : Str := "message.upserted".toList

def wsDomainTypeMessageDeleted : Str := "message.deleted".toList

/-- A derived domain event (server.go:654-658). -/
structure wsDomainEvent where
  type : Str
  chatID : Str
  ids : List Str
deriving DecidableEq

/-- A raw timeline event, restricted to the fields the mapper reads:
GetType().Type, ID, RelatesTo, RelationType, RedactedBy. -/
structure RawEvent where
  type : Str
  id : Str
  relatesTo : Str
  relationType : Str
  redactedBy : Str
deriving DecidableEq

/-- Per-room record of a SyncComplete batch, restricted to what the mapper
reads: whether Meta is non-nil, the sizes of State, AccountData and Timeline,
and the Events list (whose entries may be nil). -/
structure SyncRoom where
  metaPresent : Bool
  stateLen : Nat
  accountDataLen : Nat
  timelineLen : Nat
  events : List (Option RawEvent)
deriving DecidableEq

/-- A SyncComplete batch as consumed by the mapper. Go iterates the Rooms map
in unspecified order; the embedding fixes an association-list order, which
only affects the inter-room order of the output list. -/
structure SyncComplete where
  leftRooms : List Str
  rooms : List (Str × Option SyncRoom)
deriving DecidableEq

/-- Insertion into a Go map used as a set, tracked in first-insertion order. -/
def insertKey (k : Str) (keys : List Str) : List Str :=
  if k ∈ keys then keys else keys ++ [k]

theorem insertKey_mem {k x : Str} {l : List Str} :
    x ∈ insertKey k l ↔ x = k ∨ x ∈ l := by
  rw [insertKey]
  by_cases h : k ∈ l
  · rw [if_pos h]
    constructor
    · exact Or.inr
    · rintro (rfl | hx)
      · exact h
      · exact hx
  · rw [if_neg h, List.mem_append, List.mem_singleton]
    tauto

theorem insertKey_nodup {k : Str} {l : List Str} (h : l.Nodup) :
    (insertKey k l).Nodup := by
  rw [insertKey]
  by_cases hk : k ∈ l
  · rwa [if_pos hk]
  · rw [if_neg hk, List.nodup_append]
    exact ⟨h, List.nodup_singleton _, by simpa using hk⟩

/-- One iteration of the per-event classification loop of
mapSyncCompleteToDomainEvents (server.go:1178-1212), acting on the
accumulated (chatTouched, messageUpsertIDs, messageDeletedIDs). -/
def classifyRoomEvent (acc : Bool × List Str × List Str) (evtOpt : Option RawEvent) :
    Bool × List Str × List Str :=
  match evtOpt with
  | none => acc
  | some evt =>
    if evt.type = eventRedactionType then
      if evt.relatesTo ≠ [] then (acc.1, acc.2.1, insertKey evt.relatesTo acc.2.2) else acc
    else if evt.redactedBy ≠ [] then
      if evt.id ≠ [] then (acc.1, acc.2.1, insertKey evt.id acc.2.2) else acc
    else if evt.type = eventMessageType ∨ evt.type = eventStickerType
        ∨ evt.type = eventReactionType then
      let targetID := evt.id
      let targetID := if evt.type = eventReactionType ∧ evt.relatesTo ≠ [] then
        evt.relatesTo else targetID
      let targetID := if evt.relationType = relReplace ∧ evt.relatesTo ≠ [] then
        evt.relatesTo else targetID
      let targetID := trimSpace targetID
      if targetID ≠ [] then (true, insertKey targetID acc.2.1, acc.2.2)
      else (true, acc.2.1, acc.2.2)
    else if evt.type = stateMemberType ∨ evt.type = stateRoomNameType
        ∨ evt.type = stateRoomAvatarType ∨ evt.type = stateTopicType then
      (true, acc.2.1, acc.2.2)
    else acc

/-- Embedding of mapKeysSorted (server.go:1241-1250): drop keys whose trimmed
form is empty, then sort. The Go version iterates map keys in arbitrary order;
sorting makes the result order-independent. -/
def mapKeysSorted (keys : List Str) : List Str :=
  sortStrs (keys.filter (fun k => !((trimSpace k).isEmpty)))

/-- The chatTouched flag before the event loop (server.go:1170-1173): set when
Meta, State or AccountData changed, or else when the Timeline is non-empty. -/
def initialChatTouched (roomSync : SyncRoom) : Bool :=
  let chatTouched := roomSync.metaPresent || decide (roomSync.stateLen > 0)
    || decide (roomSync.accountDataLen > 0)
  if !chatTouched && decide (roomSync.timelineLen > 0) then true else chatTouched

/-- Per-room portion of mapSyncCompleteToDomainEvents (server.go:1164-1235)
for a room with non-empty trimmed chatID and non-nil roomSync. -/
def mapRoomSync (chatID : Str) (roomSync : SyncRoom) : List wsDomainEvent :=
  let folded := roomSync.events.foldl classifyRoomEvent (initialChatTouched roomSync, [], [])
  (if folded.1 then [⟨wsDomainTypeChatUpserted, chatID, [chatID]⟩] else [])
    ++ (if folded.2.1.length > 0 then
        [⟨wsDomainTypeMessageUpserted, chatID, mapKeysSorted folded.2.1⟩] else [])
    ++ (if folded.2.2.length > 0 then
        [⟨wsDomainTypeMessageDeleted, chatID, mapKeysSorted folded.2.2⟩] else [])

/-- Embedding of mapSyncCompleteToDomainEvents (server.go:1149-1239). -/
def mapSyncCompleteToDomainEvents (syncComplete : SyncComplete) : List wsDomainEvent :=
  (syncComplete.leftRooms.filterMap (fun leftRoom =>
    let chatID := trimSpace leftRoom
    if chatID = [] then none
    else some ⟨wsDomainTypeChatDeleted, chatID, [chatID]⟩))
  ++ (syncComplete.rooms.flatMap (fun p =>
    let chatID := trimSpace p.1
    match p.2 with
    | none => []
    | some roomSync => if chatID = [] then [] else mapRoomSync chatID roomSync))

/-- Target rule for the message-upsert ID of a message, sticker, or reaction
event: an edit (replace relation) targets the original edited event; a
reaction targets the related event; otherwise the event targets itself; the
target is trimmed. -/
def upsertTargetOf (evt : RawEvent) : Str :=
  trimSpace (if evt.relationType = relReplace ∧ evt.relatesTo ≠ [] then evt.relatesTo
    else if evt.type = eventReactionType ∧ evt.relatesTo ≠ [] then evt.relatesTo
    else evt.id)

/-- An event that contributes a message-upsert target: a non-redacted message,
sticker, or reaction event. -/
def isUpsertEvent (evt : RawEvent) : Prop :=
  evt.redactedBy = []
  ∧ (evt.type = eventMessageType ∨ evt.type = eventStickerType
      ∨ evt.type = eventReactionType)

instance (evt : RawEvent) : Decidable (isUpsertEvent evt) := by
  unfold isUpsertEvent; exact inferInstance

/-- An event that marks its room touched: a non-redacted message, sticker,
reaction, membership, room-name, room-avatar, or topic event. -/
def touchesRoomEvent (evt : RawEvent) : Prop :=
  evt.redactedBy = []
  ∧ (evt.type = eventMessageType ∨ evt.type = eventStickerType
      ∨ evt.type = eventReactionType ∨ evt.type = stateMemberType
      ∨ evt.type = stateRoomNameType ∨ evt.type = stateRoomAvatarType
      ∨ evt.type = stateTopicType)

instance (evt : RawEvent) : Decidable (touchesRoomEvent evt) := by
  unfold touchesRoomEvent; exact inferInstance

/-- The message-deleted target an event contributes, if any: a redaction event
deletes its related event; a redacted event deletes itself. -/
def deletedTargetOf (evt : RawEvent) : Option Str :=
  if evt.type = eventRedactionType then
    if evt.relatesTo ≠ [] then some evt.relatesTo else none
  else if evt.redactedBy ≠ [] then
    if evt.id ≠ [] then some evt.id else none
  else none

theorem touchesRoomEvent_ne_redaction {evt : RawEvent} (h : touchesRoomEvent evt) :
    ¬(evt.type = eventRedactionType) := by
  intro hc
  rcases h.2 with h1 | h1 | h1 | h1 | h1 | h1 | h1 <;>
    exact absurd (h1.symm.trans hc) (by decide)

theorem isUpsertEvent_ne_redaction {evt : RawEvent} (h : isUpsertEvent evt) :
    ¬(evt.type = eventRedactionType) := by
  intro hc
  rcases h.2 with h1 | h1 | h1 <;> exact absurd (h1.symm.trans hc) (by decide)

theorem classifyRoomEvent_none (acc : Bool × List Str × List Str) :
    classifyRoomEvent acc none = acc := rfl

theorem classifyRoomEvent_redaction_rel (acc : Bool × List Str × List Str)
    (evt : RawEvent) (h1 : evt.type = eventRedactionType) (h2 : evt.relatesTo ≠ []) :
    classifyRoomEvent acc (some evt) = (acc.1, acc.2.1, insertKey evt.relatesTo acc.2.2) := by
  simp [classifyRoomEvent, h1, h2]

theorem classifyRoomEvent_redaction_norel (acc : Bool × List Str × List Str)
    (evt : RawEvent) (h1 : evt.type = eventRedactionType) (h2 : evt.relatesTo = []) :
    classifyRoomEvent acc (some evt) = acc := by
  simp [classifyRoomEvent, h1, h2]

theorem classifyRoomEvent_redacted (acc : Bool × List Str × List Str)
    (evt : RawEvent) (h1 : ¬(evt.type = eventRedactionType))
    (h3 : evt.redactedBy ≠ []) (hid : evt.id ≠ []) :
    classifyRoomEvent acc (some evt) = (acc.1, acc.2.1, insertKey evt.id acc.2.2) := by
  simp [classifyRoomEvent, h1, h3, hid]

theorem classifyRoomEvent_redacted_noid (acc : Bool × List Str × List Str)
    (evt : RawEvent) (h1 : ¬(evt.type = eventRedactionType))
    (h3 : evt.redactedBy ≠ []) (hid : evt.id = []) :
    classifyRoomEvent acc (some evt) = acc := by
  simp [classifyRoomEvent, h1, h3, hid]

theorem classifyRoomEvent_upsert (acc : Bool × List Str × List Str)
    (evt : RawEvent) (h1 : ¬(evt.type = eventRedactionType))
    (hrb : evt.redactedBy = [])
    (h4 : evt.type = eventMessageType ∨ evt.type = eventStickerType
      ∨ evt.type = eventReactionType) :
    classifyRoomEvent acc (some evt)
      = if upsertTargetOf evt ≠ [] then (true, insertKey (upsertTargetOf evt) acc.2.1, acc.2.2)
        else (true, acc.2.1, acc.2.2) := by
  have hrb2 : ¬(evt.redactedBy ≠ []) := by simp [hrb]
  simp only [classifyRoomEvent, upsertTargetOf]
  rw [if_neg h1, if_neg hrb2, if_pos h4]

theorem classifyRoomEvent_state (acc : Bool × List Str × List Str)
    (evt : RawEvent) (h1 : ¬(evt.type = eventRedactionType))
    (hrb : evt.redactedBy = [])
    (h4 : ¬(evt.type = eventMessageType ∨ evt.type = eventStickerType
      ∨ evt.type = eventReactionType))
    (h5 : evt.type = stateMemberType ∨ evt.type = stateRoomNameType
      ∨ evt.type = stateRoomAvatarType ∨ evt.type = stateTopicType) :
    classifyRoomEvent acc (some evt) = (true, acc.2.1, acc.2.2) := by
  have hrb2 : ¬(evt.redactedBy ≠ []) := by simp [hrb]
  simp only [classifyRoomEvent]
  rw [if_neg h1, if_neg hrb2, if_neg h4, if_pos h5]

theorem classifyRoomEvent_other (acc : Bool × List Str × List Str)
    (evt : RawEvent) (h1 : ¬(evt.type = eventRedactionType))
    (hrb : evt.redactedBy = [])
    (h4 : ¬(evt.type = eventMessageType ∨ evt.type = eventStickerType
      ∨ evt.type = eventReactionType))
    (h5 : ¬(evt.type = stateMemberType ∨ evt.type = stateRoomNameType
      ∨ evt.type = stateRoomAvatarType ∨ evt.type = stateTopicType)) :
    classifyRoomEvent acc (some evt) = acc := by
  have hrb2 : ¬(evt.redactedBy ≠ []) := by simp [hrb]
  simp only [classifyRoomEvent]
  rw [if_neg h1, if_neg hrb2, if_neg h4, if_neg h5]

theorem filterMap_id_cons_none (l : List (Option RawEvent)) :
    (none :: l).filterMap id = l.filterMap id := rfl

theorem filterMap_id_cons_some (evt : RawEvent) (l : List (Option RawEvent)) :
    (some evt :: l).filterMap id = evt :: l.filterMap id := rfl

theorem exists_mem_cons_split {α : Type} {P : α → Prop} (a : α) (l : List α) :
    (∃ x ∈ a :: l, P x) ↔ P a ∨ ∃ x ∈ l, P x := by
  simp



theorem or_iff_or_of_not_mid {a b c : Prop} (h : ¬ b) : (a ∨ c) ↔ a ∨ (b ∨ c) := by
  constructor
  · rintro (h1 | h1)
    · exact Or.inl h1
    · exact Or.inr (Or.inr h1)
  · rintro (h1 | h1 | h1)
    · exact Or.inl h1
    · exact absurd h1 h
    · exact Or.inr h1

theorem or_insert_iff {a b c e : Prop} (hbe : b ↔ e) : ((b ∨ a) ∨ c) ↔ a ∨ (e ∨ c) := by
  constructor
  · rintro ((h | h) | h)
    · exact Or.inr (Or.inl (hbe.mp h))
    · exact Or.inl h
    · exact Or.inr (Or.inr h)
  · rintro (h | h | h)
    · exact Or.inl (Or.inr h)
    · exact Or.inl (Or.inl (hbe.mpr h))
    · exact Or.inr h

/-- Behavior of the classification fold of mapSyncCompleteToDomainEvents: the
touched flag becomes true exactly when it started true or some event touches
the room; the upsert-ID set collects exactly the non-empty targets of
non-redacted message/sticker/reaction events; the deleted-ID set collects
exactly the deletion targets; both sets stay duplicate-free. -/
theorem foldl_classifyRoomEvent (events : List (Option RawEvent)) :
    ∀ acc : Bool × List Str × List Str,
    ((events.foldl classifyRoomEvent acc).1 = true
        ↔ acc.1 = true ∨ ∃ evt ∈ events.filterMap id, touchesRoomEvent evt)
    ∧ (∀ x, x ∈ (events.foldl classifyRoomEvent acc).2.1 ↔ x ∈ acc.2.1
        ∨ ∃ evt ∈ events.filterMap id,
            isUpsertEvent evt ∧ upsertTargetOf evt = x ∧ x ≠ [])
    ∧ (acc.2.1.Nodup → (events.foldl classifyRoomEvent acc).2.1.Nodup)
    ∧ (∀ x, x ∈ (events.foldl classifyRoomEvent acc).2.2 ↔ x ∈ acc.2.2
        ∨ ∃ evt ∈ events.filterMap id, deletedTargetOf evt = some x)
    ∧ (acc.2.2.Nodup → (events.foldl classifyRoomEvent acc).2.2.Nodup) := by
  induction events with
  | nil => intro acc; simp
  | cons evtOpt rest ih =>
    intro acc
    rw [List.foldl_cons]
    cases evtOpt with
    | none =>
      rw [classifyRoomEvent_none, filterMap_id_cons_none]
      exact ih acc
    | some evt =>
      rw [filterMap_id_cons_some]
      by_cases h1 : evt.type = eventRedactionType
      · have hnt : ¬ touchesRoomEvent evt := fun ht => touchesRoomEvent_ne_redaction ht h1
        by_cases h2 : evt.relatesTo = []
        · have hdel : deletedTargetOf evt = none := by
            simp [deletedTargetOf, h1, h2]
          rw [classifyRoomEvent_redaction_norel acc evt h1 h2]
          obtain ⟨i1, i2, i3, i4, i5⟩ := ih acc
          refine ⟨?_, ?_, i3, ?_, i5⟩
          · rw [i1, exists_mem_cons_split]
            exact or_iff_or_of_not_mid hnt
          · intro x
            rw [i2 x, exists_mem_cons_split]
            exact or_iff_or_of_not_mid (fun hc => isUpsertEvent_ne_redaction hc.1 h1)
          · intro x
            rw [i4 x, exists_mem_cons_split, hdel]
            exact or_iff_or_of_not_mid (by simp)
        · have h2b : evt.relatesTo ≠ [] := h2
          have hdel : deletedTargetOf evt = some evt.relatesTo := by
            simp [deletedTargetOf, h1, h2b]
          rw [classifyRoomEvent_redaction_rel acc evt h1 h2b]
          obtain ⟨i1, i2, i3, i4, i5⟩ := ih (acc.1, acc.2.1, insertKey evt.relatesTo acc.2.2)
          refine ⟨?_, ?_, i3, ?_, fun h => i5 (insertKey_nodup h)⟩
          · rw [i1, exists_mem_cons_split]
            exact or_iff_or_of_not_mid hnt
          · intro x
            rw [i2 x, exists_mem_cons_split]
            exact or_iff_or_of_not_mid (fun hc => isUpsertEvent_ne_redaction hc.1 h1)
          · intro x
            rw [i4 x, insertKey_mem, exists_mem_cons_split, hdel]
            refine or_insert_iff ?_
            constructor
            · intro h; rw [h]
            · intro h; exact (Option.some_inj.mp h).symm
      · by_cases h3 : evt.redactedBy = []
        · by_cases h4 : evt.type = eventMessageType ∨ evt.type = eventStickerType
              ∨ evt.type = eventReactionType
          · have htouch : touchesRoomEvent evt := by
              refine ⟨h3, ?_⟩
              rcases h4 with h | h | h
              exacts [Or.inl h, Or.inr (Or.inl h), Or.inr (Or.inr (Or.inl h))]
            have hup : isUpsertEvent evt := ⟨h3, h4⟩
            have hdel : deletedTargetOf evt = none := by
              simp [deletedTargetOf, h1, h3]
            rw [classifyRoomEvent_upsert acc evt h1 h3 h4]
            by_cases htarg : upsertTargetOf evt ≠ []
            · rw [if_pos htarg]
              obtain ⟨i1, i2, i3, i4, i5⟩ :=
                ih (true, insertKey (upsertTargetOf evt) acc.2.1, acc.2.2)
              refine ⟨?_, ?_, fun h => i3 (insertKey_nodup h), ?_, i5⟩
              · exact iff_of_true (i1.mpr (Or.inl rfl)) (Or.inr ⟨evt, List.mem_cons_self _ _, htouch⟩)
              · intro x
                rw [i2 x, insertKey_mem, exists_mem_cons_split]
                constructor
                · rintro ((h | h) | h)
                  · exact Or.inr (Or.inl ⟨hup, h.symm, h ▸ htarg⟩)
                  · exact Or.inl h
                  · exact Or.inr (Or.inr h)
                · rintro (h | ⟨_, h, _⟩ | h)
                  · exact Or.inl (Or.inr h)
                  · exact Or.inl (Or.inl h.symm)
                  · exact Or.inr h
              · intro x
                rw [i4 x, exists_mem_cons_split, hdel]
                exact or_iff_or_of_not_mid (by simp)
            · rw [if_neg htarg]
              have htarg2 : upsertTargetOf evt = [] := by
                by_contra hc; exact htarg hc
              obtain ⟨i1, i2, i3, i4, i5⟩ := ih (true, acc.2.1, acc.2.2)
              refine ⟨?_, ?_, i3, ?_, i5⟩
              · exact iff_of_true (i1.mpr (Or.inl rfl)) (Or.inr ⟨evt, List.mem_cons_self _ _, htouch⟩)
              · intro x
                rw [i2 x, exists_mem_cons_split]
                refine or_iff_or_of_not_mid ?_
                rintro ⟨_, hx, hne⟩
                exact hne (hx.symm.trans htarg2)
              · intro x
                rw [i4 x, exists_mem_cons_split, hdel]
                exact or_iff_or_of_not_mid (by simp)
          · have hdel : deletedTargetOf evt = none := by
              simp [deletedTargetOf, h1, h3]
            by_cases h5 : evt.type = stateMemberType ∨ evt.type = stateRoomNameType
                ∨ evt.type = stateRoomAvatarType ∨ evt.type = stateTopicType
            · have htouch : touchesRoomEvent evt := by
                refine ⟨h3, ?_⟩
                rcases h5 with h | h | h | h
                exacts [Or.inr (Or.inr (Or.inr (Or.inl h))),
                  Or.inr (Or.inr (Or.inr (Or.inr (Or.inl h)))),
                  Or.inr (Or.inr (Or.inr (Or.inr (Or.inr (Or.inl h))))),
                  Or.inr (Or.inr (Or.inr (Or.inr (Or.inr (Or.inr h)))))]
              rw [classifyRoomEvent_state acc evt h1 h3 h4 h5]
              obtain ⟨i1, i2, i3, i4, i5⟩ := ih (true, acc.2.1, acc.2.2)
              refine ⟨?_, ?_, i3, ?_, i5⟩
              · exact iff_of_true (i1.mpr (Or.inl rfl)) (Or.inr ⟨evt, List.mem_cons_self _ _, htouch⟩)
              · intro x
                rw [i2 x, exists_mem_cons_split]
                exact or_iff_or_of_not_mid (fun hc => h4 hc.1.2)
              · intro x
                rw [i4 x, exists_mem_cons_split, hdel]
                exact or_iff_or_of_not_mid (by simp)
            · have hnt : ¬ touchesRoomEvent evt := by
                rintro ⟨_, ht⟩
                rcases ht with h | h | h | h | h | h | h
                exacts [h4 (Or.inl h), h4 (Or.inr (Or.inl h)), h4 (Or.inr (Or.inr h)),
                  h5 (Or.inl h), h5 (Or.inr (Or.inl h)), h5 (Or.inr (Or.inr (Or.inl h))),
                  h5 (Or.inr (Or.inr (Or.inr h)))]
              rw [classifyRoomEvent_other acc evt h1 h3 h4 h5]
              obtain ⟨i1, i2, i3, i4, i5⟩ := ih acc
              refine ⟨?_, ?_, i3, ?_, i5⟩
              · rw [i1, exists_mem_cons_split]
                exact or_iff_or_of_not_mid hnt
              · intro x
                rw [i2 x, exists_mem_cons_split]
                exact or_iff_or_of_not_mid (fun hc => h4 hc.1.2)
              · intro x
                rw [i4 x, exists_mem_cons_split, hdel]
                exact or_iff_or_of_not_mid (by simp)
        · have h3b : evt.redactedBy ≠ [] := h3
          have hnt : ¬ touchesRoomEvent evt := fun ht => h3 ht.1
          by_cases hid : evt.id = []
          · have hdel : deletedTargetOf evt = none := by
              simp [deletedTargetOf, h1, h3b, hid]
            rw [classifyRoomEvent_redacted_noid acc evt h1 h3b hid]
            obtain ⟨i1, i2, i3, i4, i5⟩ := ih acc
            refine ⟨?_, ?_, i3, ?_, i5⟩
            · rw [i1, exists_mem_cons_split]
              exact or_iff_or_of_not_mid hnt
            · intro x
              rw [i2 x, exists_mem_cons_split]
              exact or_iff_or_of_not_mid (fun hc => h3 hc.1.1)
            · intro x
              rw [i4 x, exists_mem_cons_split, hdel]
              exact or_iff_or_of_not_mid (by simp)
          · have hidb : evt.id ≠ [] := hid
            have hdel : deletedTargetOf evt = some evt.id := by
              simp [deletedTargetOf, h1, h3b, hidb]
            rw [classifyRoomEvent_redacted acc evt h1 h3b hidb]
            obtain ⟨i1, i2, i3, i4, i5⟩ := ih (acc.1, acc.2.1, insertKey evt.id acc.2.2)
            refine ⟨?_, ?_, i3, ?_, fun h => i5 (insertKey_nodup h)⟩
            · rw [i1, exists_mem_cons_split]
              exact or_iff_or_of_not_mid hnt
            · intro x
              rw [i2 x, exists_mem_cons_split]
              exact or_iff_or_of_not_mid (fun hc => h3 hc.1.1)
            · intro x
              rw [i4 x, insertKey_mem, exists_mem_cons_split, hdel]
              refine or_insert_iff ?_
              constructor
              · intro h; rw [h]
              · intro h; exact (Option.some_inj.mp h).symm


theorem touches_of_isUpsert {evt : RawEvent} (h : isUpsertEvent evt) :
    touchesRoomEvent evt := by
  refine ⟨h.1, ?_⟩
  rcases h.2 with h1 | h1 | h1
  exacts [Or.inl h1, Or.inr (Or.inl h1), Or.inr (Or.inr (Or.inl h1))]

theorem upsertTargetOf_trimmed (evt : RawEvent) :
    trimSpace (upsertTargetOf evt) = upsertTargetOf evt := by
  unfold upsertTargetOf
  exact trimSpace_idem _

theorem filter_trim_eq_self {l : List Str}
    (h : ∀ x ∈ l, trimSpace x = x ∧ x ≠ []) :
    l.filter (fun k => !((trimSpace k).isEmpty)) = l := by
  apply List.filter_eq_self.mpr
  intro a ha
  obtain ⟨h1, h2⟩ := h a ha
  rw [h1]
  cases hx : a with
  | nil => exact absurd hx h2
  | cons c t => rfl

/-- Scenario event: one message event "$e1" in room "!r1". -/
def scenarioMessageEvent : RawEvent :=
  { type := "m.room.message".toList, id := "$e1".toList, relatesTo := [],
    relationType := [], redactedBy := [] }

/-- Scenario event: one reaction event relating to "$e1". -/
def scenarioReactionEvent : RawEvent :=
  { type := "m.reaction".toList, id := "$r1".toList, relatesTo := "$e1".toList,
    relationType := "m.annotation".toList, redactedBy := [] }

/-- Scenario room record: room "!r1" touched with the two scenario events. -/
def scenarioRoom : SyncRoom :=
  { metaPresent := false, stateLen := 0, accountDataLen := 0, timelineLen := 2,
    events := [some scenarioMessageEvent, some scenarioReactionEvent] }

/-- Scenario batch: one touched room "!r1", no left rooms. -/
def scenarioBatch : SyncComplete :=
  { leftRooms := [], rooms := [("!r1".toList, some scenarioRoom)] }

/-- C7: in the Domain Event Mapper, a touched room containing at least one
non-redacted message, sticker, or reaction event with a non-empty target
yields exactly one chat-upserted event and exactly one message-upserted event
whose ids are the deduplicated, lexicographically sorted upsert targets, where
a reaction targets its related event, an edit (replace relation) targets the
original edited event, and any other event targets itself; in particular a
room with one message event $e1 and one reaction relating to $e1 yields one
chat-upserted and one message-upserted with ids ["$e1"]. -/
theorem mapRoomSync_upsert_rule :
    (∀ (chatID : Str) (roomSync : SyncRoom),
      (∃ evt ∈ roomSync.events.filterMap id,
          isUpsertEvent evt ∧ upsertTargetOf evt ≠ []) →
      ∃ ids delPart,
        mapRoomSync chatID roomSync
          = { type := wsDomainTypeChatUpserted, chatID := chatID, ids := [chatID] }
            :: { type := wsDomainTypeMessageUpserted, chatID := chatID, ids := ids }
            :: delPart
        ∧ ids.Nodup ∧ ids.Sorted (· ≤ ·)
        ∧ (∀ x, x ∈ ids ↔ ∃ evt ∈ roomSync.events.filterMap id,
              isUpsertEvent evt ∧ upsertTargetOf evt = x ∧ x ≠ [])
        ∧ (delPart = []
            ∨ ∃ dids, delPart
                = [{ type := wsDomainTypeMessageDeleted, chatID := chatID,
                     ids := dids }]))
    ∧ mapSyncCompleteToDomainEvents scenarioBatch
      = [{ type := wsDomainTypeChatUpserted, chatID := "!r1".toList,
           ids := ["!r1".toList] },
         { type := wsDomainTypeMessageUpserted, chatID := "!r1".toList,
           ids := ["$e1".toList] }] := by
  constructor
  · intro chatID roomSync hsome
    obtain ⟨evt0, hin0, hup0, hne0⟩ := hsome
    obtain ⟨i1, i2, i3, i4, i5⟩ :=
      foldl_classifyRoomEvent roomSync.events (initialChatTouched roomSync, [], [])
    have hmem : ∀ x,
        x ∈ (roomSync.events.foldl classifyRoomEvent
            (initialChatTouched roomSync, [], [])).2.1
          ↔ ∃ evt ∈ roomSync.events.filterMap id,
              isUpsertEvent evt ∧ upsertTargetOf evt = x ∧ x ≠ [] := by
      intro x
      rw [i2 x]
      simp
    have hf1 : (roomSync.events.foldl classifyRoomEvent
        (initialChatTouched roomSync, [], [])).1 = true :=
      i1.mpr (Or.inr ⟨evt0, hin0, touches_of_isUpsert hup0⟩)
    have hnodup := i3 List.nodup_nil
    have hlen : 0 < (roomSync.events.foldl classifyRoomEvent
        (initialChatTouched roomSync, [], [])).2.1.length :=
      List.length_pos_of_mem ((hmem _).mpr ⟨evt0, hin0, hup0, rfl, hne0⟩)
    have htrimmed : ∀ x ∈ (roomSync.events.foldl classifyRoomEvent
        (initialChatTouched roomSync, [], [])).2.1, trimSpace x = x ∧ x ≠ [] := by
      intro x hx
      obtain ⟨evt, _, _, hx2, hne⟩ := (hmem x).mp hx
      exact ⟨by rw [← hx2]; exact upsertTargetOf_trimmed evt, hne⟩
    have hks : mapKeysSorted (roomSync.events.foldl classifyRoomEvent
        (initialChatTouched roomSync, [], [])).2.1
          = sortStrs (roomSync.events.foldl classifyRoomEvent
              (initialChatTouched roomSync, [], [])).2.1 := by
      rw [mapKeysSorted, filter_trim_eq_self htrimmed]
    refine ⟨mapKeysSorted (roomSync.events.foldl classifyRoomEvent
        (initialChatTouched roomSync, [], [])).2.1,
      (if 0 < (roomSync.events.foldl classifyRoomEvent
          (initialChatTouched roomSync, [], [])).2.2.length then
        [{ type := wsDomainTypeMessageDeleted, chatID := chatID,
           ids := mapKeysSorted (roomSync.events.foldl classifyRoomEvent
             (initialChatTouched roomSync, [], [])).2.2 }] else []),
      ?_, ?_, ?_, ?_, ?_⟩
    · simp only [mapRoomSync, hf1, if_true, hlen]
      simp
    · rw [hks]
      exact sortStrs_nodup hnodup
    · rw [hks]
      exact sortStrs_sorted _
    · intro x
      rw [hks, sortStrs_mem]
      exact hmem x
    · by_cases hdl : 0 < (roomSync.events.foldl classifyRoomEvent
          (initialChatTouched roomSync, [], [])).2.2.length
      · exact Or.inr ⟨_, if_pos hdl⟩
      · exact Or.inl (if_neg hdl)
  · decide


theorem mapRoomSync_upsert_rule_witness :
    ∃ ids delPart,
      mapRoomSync "!r1".toList scenarioRoom
        = { type := wsDomainTypeChatUpserted, chatID := "!r1".toList,
            ids := ["!r1".toList] }
          :: { type := wsDomainTypeMessageUpserted, chatID := "!r1".toList,
               ids := ids }
          :: delPart
      ∧ ids.Nodup ∧ ids.Sorted (· ≤ ·)
      ∧ (∀ x, x ∈ ids ↔ ∃ evt ∈ scenarioRoom.events.filterMap id,
            isUpsertEvent evt ∧ upsertTargetOf evt = x ∧ x ≠ [])
      ∧ (delPart = []
          ∨ ∃ dids, delPart
              = [{ type := wsDomainTypeMessageDeleted, chatID := "!r1".toList,
                   ids := dids }]) :=
  mapRoomSync_upsert_rule.1 "!r1".toList scenarioRoom
    ⟨scenarioMessageEvent, by decide, by decide, by decide⟩

/-- C9: a room record whose Timeline is non-empty is marked touched and gets a
chat-upserted event even when Meta is nil, State and AccountData are empty,
and whatever the Events list contains (in particular when it holds no message,
sticker, reaction, or recognized state event). -/
theorem mapSyncComplete_timeline_touch
    (batch : SyncComplete) (rid : Str) (roomSync : SyncRoom)
    (hmem : (rid, some roomSync) ∈ batch.rooms)
    (hid : trimSpace rid ≠ [])
    (hmeta : roomSync.metaPresent = false)
    (hstate : roomSync.stateLen = 0)
    (had : roomSync.accountDataLen = 0)
    (htl : 0 < roomSync.timelineLen) :
    { type := wsDomainTypeChatUpserted, chatID := trimSpace rid,
      ids := [trimSpace rid] } ∈ mapSyncCompleteToDomainEvents batch := by
  have hinit : initialChatTouched roomSync = true := by
    simp [initialChatTouched, hmeta, hstate, had, htl]
  obtain ⟨i1, i2, i3, i4, i5⟩ :=
    foldl_classifyRoomEvent roomSync.events (initialChatTouched roomSync, [], [])
  have hf1 : (roomSync.events.foldl classifyRoomEvent
      (initialChatTouched roomSync, [], [])).1 = true :=
    i1.mpr (Or.inl hinit)
  have hin : wsDomainEvent.mk wsDomainTypeChatUpserted (trimSpace rid)
      [trimSpace rid] ∈ mapRoomSync (trimSpace rid) roomSync := by
    simp only [mapRoomSync, hf1, if_true]
    simp
  rw [mapSyncCompleteToDomainEvents]
  apply List.mem_append_right
  rw [List.mem_flatMap]
  refine ⟨(rid, some roomSync), hmem, ?_⟩
  show _ ∈ (if trimSpace rid = [] then ([] : List wsDomainEvent)
    else mapRoomSync (trimSpace rid) roomSync)
  rw [if_neg hid]
  exact hin

/-- Scenario room for C9: only the timeline changed. -/
def timelineOnlyRoom : SyncRoom :=
  { metaPresent := false, stateLen := 0, accountDataLen := 0, timelineLen := 1,
    events := [] }

/-- Scenario batch for C9. -/
def timelineOnlyBatch : SyncComplete :=
  { leftRooms := [], rooms := [("!r2".toList, some timelineOnlyRoom)] }

theorem mapSyncComplete_timeline_touch_witness :
    { type := wsDomainTypeChatUpserted, chatID := "!r2".toList,
      ids := ["!r2".toList] } ∈ mapSyncCompleteToDomainEvents timelineOnlyBatch := by
  have h := mapSyncComplete_timeline_touch timelineOnlyBatch "!r2".toList
    timelineOnlyRoom (by decide) (by decide) rfl rfl rfl (by decide)
  have he : trimSpace "!r2".toList = "!r2".toList := by decide
  rw [he] at h
  exact h

/-- Scenario event for C10: a redacted message event. -/
def redactedScenarioEvent : RawEvent :=
  { type := "m.room.message".toList, id := "$e9".toList, relatesTo := [],
    relationType := [], redactedBy := "$r9".toList }

/-- C10: deletion wins for a redacted event: a non-redaction event whose
RedactedBy field is non-empty and whose ID is non-empty adds its own ID to the
message-deleted target set only — it contributes no message-upsert target and
does not itself mark the room touched, even when its type is message, sticker,
or reaction. -/
theorem classifyRoomEvent_deletion_wins
    (acc : Bool × List Str × List Str) (evt : RawEvent)
    (hnr : ¬(evt.type = eventRedactionType))
    (hrb : evt.redactedBy ≠ []) (hid : evt.id ≠ []) :
    classifyRoomEvent acc (some evt) = (acc.1, acc.2.1, insertKey evt.id acc.2.2) :=
  classifyRoomEvent_redacted acc evt hnr hrb hid

theorem classifyRoomEvent_deletion_wins_witness :
    classifyRoomEvent (false, [], []) (some redactedScenarioEvent)
      = (false, [], ["$e9".toList]) :=
  (classifyRoomEvent_deletion_wins (false, [], []) redactedScenarioEvent
    (by decide) (by decide) (by decide)).trans (by decide)



/-- A JSON value, modelling the dynamic values held in compatRecord
(map[string]any) entries. Go JSON numbers are float64; only their serialized
form matters to the fingerprint, so they are carried as integers here. -/
inductive JVal where
  | null : JVal
  | bool (b : Bool) : JVal
  | num (n : Int) : JVal
  | str (s : Str) : JVal
  | arr (items : List JVal) : JVal
  | obj (fields : List (Str × JVal)) : JVal

/-- A hydrated message record (compatRecord, server.go:652). -/
abbrev compatRecord := List (Str × JVal)

/-- Sorting of object fields by key, modelling json.Marshal key order and the
explicit key sort in normalizeForFingerprint (server.go:1280-1292). -/
def sortFieldsByKey (fields : List (Str × JVal)) : List (Str × JVal) :=
  fields.insertionSort (fun a b => a.1 ≤ b.1)

mutual

/-- Embedding of normalizeForFingerprint (server.go:1265-1296): recurse into
arrays and objects, dropping the volatile "ts" and "timestamp" keys and
sorting the remaining keys. -/
def normalizeForFingerprint : JVal → JVal
  | .null => .null
  | .bool b => .bool b
  | .num n => .num n
  | .str s => .str s
  | .arr items => .arr (normalizeFingerprintList items)
  | .obj fields => .obj (sortFieldsByKey (normalizeFingerprintFields fields))

def normalizeFingerprintList : List JVal → List JVal
  | [] => []
  | v :: rest => normalizeForFingerprint v :: normalizeFingerprintList rest

def normalizeFingerprintFields : List (Str × JVal) → List (Str × JVal)
  | [] => []
  | (k, v) :: rest =>
    if k = "ts".toList ∨ k = "timestamp".toList then normalizeFingerprintFields rest
    else (k, normalizeForFingerprint v) :: normalizeFingerprintFields rest

end

mutual

/-- JSON serialization of a value, modelling json.Marshal: object keys are
emitted in the order they appear (buildWSFingerprint sorts them first), and
string escaping is elided since fingerprints are only compared for equality. -/
def serializeJVal : JVal → Str
  | .null => "null".toList
  | .bool true => "true".toList
  | .bool false => "false".toList
  | .num n => (toString n).toList
  | .str s => '"' :: (s ++ ['"'])
  | .arr items => '[' :: (serializeJValList items ++ [']'])
  | .obj fields => '\x7b' :: (serializeJValFields fields ++ ['\x7d'])

def serializeJValList : List JVal → Str
  | [] => []
  | [v] => serializeJVal v
  | v :: rest => serializeJVal v ++ (',' :: serializeJValList rest)

def serializeJValFields : List (Str × JVal) → Str
  | [] => []
  | [(k, v)] => '"' :: (k ++ ('"' :: (':' :: serializeJVal v)))
  | (k, v) :: rest =>
    ('"' :: (k ++ ('"' :: (':' :: serializeJVal v)))) ++ (',' :: serializeJValFields rest)

end

/-- Embedding of buildWSFingerprint (server.go:1252-1263): serialize the
normalized map with sorted keys; "entries" is present only when at least one
hydrated entry exists. -/
def buildWSFingerprint (domainEvent : wsDomainEvent)
    (entries : List compatRecord) : Str :=
  serializeJVal (.obj (sortFieldsByKey
    ([("type".toList, .str domainEvent.type),
      ("chatID".toList, .str domainEvent.chatID),
      ("ids".toList, .arr (domainEvent.ids.map JVal.str))]
      ++ (if entries.length > 0 then
          [("entries".toList,
            normalizeForFingerprint (.arr (entries.map JVal.obj)))]
        else []))))

/-- The duplicate-suppression debounce window, in milliseconds
(server.go:596). -/
def wsDuplicateEventDebounce : Int := 250

/-- Fingerprint retention horizon in milliseconds (server.go:597). -/
def wsFingerprintRetention : Int := 30000

/-- Minimum interval between fingerprint-cache prunes, in milliseconds
(server.go:598). -/
def wsFingerprintPruneInterval : Int := 5000

/-- The hub state read and written by the dispatch loop (server.go:666-681):
the registered clients keyed by connection, the fingerprint cache with
last-seen times, and the last prune time. Times are Int milliseconds. -/
structure wsHubState where
  clients : List (Nat × wsClientState)
  recentFingerprints : List (Str × Int)
  lastFingerprintPrune : Int

/-- Lookup h.recentFingerprints[fingerprint]. -/
def lookupFingerprint (m : List (Str × Int)) (fp : Str) : Option Int :=
  (m.find? (fun p => decide (p.1 = fp))).map (fun p => p.2)

/-- The map write h.recentFingerprints[fingerprint] = now. -/
def updateFingerprint (m : List (Str × Int)) (fp : Str) (t : Int) :
    List (Str × Int) :=
  (m.filter (fun p => !(decide (p.1 = fp)))) ++ [(fp, t)]

/-- Embedding of pruneFingerprintsLocked (server.go:838-848): drop entries
older than the retention horizon, at most once per prune interval. -/
def pruneFingerprintsLocked (now lastPrune : Int) (m : List (Str × Int)) :
    Int × List (Str × Int) :=
  if now - lastPrune < wsFingerprintPruneInterval then (lastPrune, m)
  else (now, m.filter (fun p => !(decide (now - p.2 > wsFingerprintRetention))))

/-- Embedding of dropDuplicate (server.go:826-836): record the fingerprint at
the current time (sliding window), prune opportunistically, and report
suppression when the fingerprint was last seen within the debounce window. -/
def dropDuplicate (st : wsHubState) (domainEvent : wsDomainEvent)
    (entries : List compatRecord) (now : Int) : Bool × wsHubState :=
  let fingerprint := buildWSFingerprint domainEvent entries
  let previousAt := lookupFingerprint st.recentFingerprints fingerprint
  let m1 := updateFingerprint st.recentFingerprints fingerprint now
  let pruned := pruneFingerprintsLocked now st.lastFingerprintPrune m1
  (match previousAt with
    | some t => decide (now - t < wsDuplicateEventDebounce)
    | none => false,
    { st with recentFingerprints := pruned.2, lastFingerprintPrune := pruned.1 })

theorem find?_filter_ne_none {m : List (Str × Int)} {fp : Str} :
    (m.filter (fun p => !(decide (p.1 = fp)))).find?
        (fun p => decide (p.1 = fp)) = none := by
  rw [List.find?_eq_none]
  intro p hp
  have h := List.of_mem_filter hp
  simpa using h

theorem lookupFingerprint_update {m : List (Str × Int)} {fp : Str} {t : Int} :
    lookupFingerprint (updateFingerprint m fp t) fp = some t := by
  rw [lookupFingerprint, updateFingerprint, List.find?_append, find?_filter_ne_none]
  simp

theorem lookupFingerprint_update_prune {m : List (Str × Int)} {fp : Str}
    {lp now : Int} :
    lookupFingerprint (pruneFingerprintsLocked now lp (updateFingerprint m fp now)).2
      fp = some now := by
  rw [pruneFingerprintsLocked]
  by_cases h : now - lp < wsFingerprintPruneInterval
  · rw [if_pos h]
    exact lookupFingerprint_update
  · rw [if_neg h]
    show lookupFingerprint (List.filter _ (updateFingerprint m fp now)) fp = some now
    rw [updateFingerprint, List.filter_append, lookupFingerprint, List.find?_append]
    have h1 : ((m.filter (fun p => !(decide (p.1 = fp)))).filter
        (fun p => !(decide (now - p.2 > wsFingerprintRetention)))).find?
          (fun p => decide (p.1 = fp)) = none := by
      rw [List.find?_eq_none]
      intro p hp
      have hp2 := List.of_mem_filter (List.mem_of_mem_filter hp)
      simpa using hp2
    rw [h1]
    have h2 : ¬(now - now > wsFingerprintRetention) := by
      rw [wsFingerprintRetention]
      omega
    simp [h2]
    rw [wsFingerprintRetention]
    omega


/-- Hub state as initialized by newWSHub (server.go:683-690): no clients, an
empty fingerprint cache, zero prune time. -/
def newWSHubState : wsHubState :=
  { clients := [], recentFingerprints := [], lastFingerprintPrune := 0 }

theorem dropDuplicate_iff (st : wsHubState) (domainEvent : wsDomainEvent)
    (entries : List compatRecord) (now : Int) :
    (dropDuplicate st domainEvent entries now).1 = true
      ↔ ∃ t, lookupFingerprint st.recentFingerprints
            (buildWSFingerprint domainEvent entries) = some t
          ∧ now - t < wsDuplicateEventDebounce := by
  cases hl : lookupFingerprint st.recentFingerprints
      (buildWSFingerprint domainEvent entries) with
  | none => simp [dropDuplicate, hl]
  | some t => simp [dropDuplicate, hl]

theorem dropDuplicate_updates (st : wsHubState) (domainEvent : wsDomainEvent)
    (entries : List compatRecord) (now : Int) :
    lookupFingerprint
        (dropDuplicate st domainEvent entries now).2.recentFingerprints
        (buildWSFingerprint domainEvent entries) = some now := by
  show lookupFingerprint (pruneFingerprintsLocked now st.lastFingerprintPrune
    (updateFingerprint st.recentFingerprints
      (buildWSFingerprint domainEvent entries) now)).2 _ = some now
  exact lookupFingerprint_update_prune

/-- C3: the duplicate suppressor drops a DomainEvent iff the fingerprint
computed from its type, chatID, ids, and hydrated entries (with ts/timestamp
keys stripped) was last recorded strictly less than 250ms before the current
dispatch time; on every dispatch the fingerprint's last-seen time is updated
to the current time whether or not the event was suppressed (sliding window);
consequently a second identical dispatch within the window is always
suppressed, so only the first of a burst is delivered. -/
theorem dropDuplicate_debounce_spec :
    (∀ (st : wsHubState) (domainEvent : wsDomainEvent)
        (entries : List compatRecord) (now : Int),
      (dropDuplicate st domainEvent entries now).1 = true
        ↔ ∃ t, lookupFingerprint st.recentFingerprints
              (buildWSFingerprint domainEvent entries) = some t
            ∧ now - t < wsDuplicateEventDebounce)
    ∧ (∀ (st : wsHubState) (domainEvent : wsDomainEvent)
        (entries : List compatRecord) (now : Int),
      lookupFingerprint
          (dropDuplicate st domainEvent entries now).2.recentFingerprints
          (buildWSFingerprint domainEvent entries) = some now)
    ∧ (∀ (st : wsHubState) (domainEvent : wsDomainEvent)
        (entries : List compatRecord) (t1 t2 : Int),
      t2 - t1 < wsDuplicateEventDebounce →
      (dropDuplicate (dropDuplicate st domainEvent entries t1).2
          domainEvent entries t2).1 = true) :=
  ⟨dropDuplicate_iff, dropDuplicate_updates,
   fun st domainEvent entries t1 t2 h =>
     (dropDuplicate_iff _ domainEvent entries t2).mpr
       ⟨t1, dropDuplicate_updates st domainEvent entries t1, h⟩⟩

theorem dropDuplicate_debounce_spec_witness :
    (dropDuplicate
        (dropDuplicate newWSHubState
          (wsDomainEvent.mk wsDomainTypeChatUpserted "!r1".toList ["!r1".toList])
          [] 0).2
        (wsDomainEvent.mk wsDomainTypeChatUpserted "!r1".toList ["!r1".toList])
        [] 100).1 = true :=
  dropDuplicate_debounce_spec.2.2 newWSHubState
    (wsDomainEvent.mk wsDomainTypeChatUpserted "!r1".toList ["!r1".toList])
    [] 0 100 (by decide)


/-- Embedding of isWSSubscribed (server.go:1137-1147): an empty subscription
matches nothing; otherwise any entry equal to the wildcard or to the chat ID
matches. -/
def isWSSubscribed (subscribedChatIDs : List Str) (chatID : Str) : Bool :=
  if subscribedChatIDs.length = 0 then false
  else subscribedChatIDs.any (fun subscribed =>
    decide (subscribed = wsWildcardSubscriptionChatID ∨ subscribed = chatID))

/-- Embedding of subscribedTargets (server.go:810-824): the registered
connections whose stored subscription matches the chat ID. The Go nil-checks
on conn/state have no counterpart since the model holds no nil entries. -/
def subscribedTargets (clients : List (Nat × wsClientState)) (chatID : Str) :
    List (Nat × wsClientState) :=
  clients.filter (fun c => isWSSubscribed c.2.chatIDs chatID)

/-- A delivered domain-event message (wsDomainEventMessage, server.go:643-650). -/
structure wsDomainEventMessage where
  type : Str
  seq : Nat
  ts : Int
  chatID : Str
  ids : List Str
  entries : List compatRecord

/-- The hydration step of processSyncComplete (server.go:774-781), relative
to the hydration oracle: only message-upserted events hydrate; a hydration
error or an empty result drops the event (none). -/
def hydrateForEvent (hydrate : Str → List Str → Option (List compatRecord))
    (domainEvent : wsDomainEvent) : Option (List compatRecord) :=
  if domainEvent.type = wsDomainTypeMessageUpserted then
    match hydrate domainEvent.chatID domainEvent.ids with
    | none => none
    | some hydrated => if hydrated.length = 0 then none else some hydrated
  else some []

/-- The fan-out step of processSyncComplete (server.go:788-801): every
matching connection gets its sequence counter incremented and receives the
message carrying the new counter value, the dispatch timestamp, and the
hydrated entries. -/
def fanOutEvent (now : Int) (st : wsHubState) (domainEvent : wsDomainEvent)
    (entries : List compatRecord) :
    wsHubState × List (Nat × wsDomainEventMessage) :=
  let newClients := st.clients.map (fun c =>
    if isWSSubscribed c.2.chatIDs domainEvent.chatID then
      (c.1, { c.2 with seq := c.2.seq + 1 })
    else c)
  let msgs := st.clients.filterMap (fun c =>
    if isWSSubscribed c.2.chatIDs domainEvent.chatID then
      some (c.1, { type := domainEvent.type, seq := c.2.seq + 1, ts := now,
                   chatID := domainEvent.chatID, ids := domainEvent.ids,
                   entries := entries })
    else none)
  ({ st with clients := newClients }, msgs)

/-- One iteration of the dispatch loop of processSyncComplete
(server.go:768-802) for a single domain event, relative to a hydration oracle
standing for hydrateMessagesForWSEvent (none = error): compute targets and
skip when none; for message-upserted events hydrate and drop the event on
error or zero entries; consult the duplicate suppressor; then fan out,
incrementing each matching connection's sequence counter. Transport writes
are modelled as always succeeding (a write error only tears the connection
down). The per-target counter increments act on the registry entries, which
Go reaches through shared pointers; each registered connection occurs once. -/
def processDomainEvent (hydrate : Str → List Str → Option (List compatRecord))
    (now : Int) (st : wsHubState) (domainEvent : wsDomainEvent) :
    wsHubState × List (Nat × wsDomainEventMessage) :=
  let targets := subscribedTargets st.clients domainEvent.chatID
  if targets.length = 0 then (st, [])
  else
    match hydrateForEvent hydrate domainEvent with
    | none => (st, [])
    | some entries =>
      if (dropDuplicate st domainEvent entries now).1 then
        ((dropDuplicate st domainEvent entries now).2, [])
      else fanOutEvent now (dropDuplicate st domainEvent entries now).2
        domainEvent entries

/-- Registration of a fresh connection (wsEvents, server.go:959-960): the new
client state has sequence counter zero and an empty subscription. -/
def registerConnection (st : wsHubState) (connId : Nat) : wsHubState :=
  { st with clients := st.clients ++ [(connId, { seq := 0, chatIDs := [] })] }

/-- Embedding of setSubscriptions (server.go:758-764): replace the stored
subscription of the given connection, if registered. -/
def setSubscriptions (st : wsHubState) (connId : Nat) (chatIDs : List Str) :
    wsHubState :=
  { st with clients := st.clients.map (fun c =>
      if c.1 = connId then (c.1, { c.2 with chatIDs := chatIDs }) else c) }

/-- An observable action during a connection's lifetime: a domain-event
dispatch at some time, or a subscription change for some connection. -/
inductive wsHubAction where
  | dispatch (domainEvent : wsDomainEvent) (now : Int)
  | setSubs (connId : Nat) (chatIDs : List Str)

/-- A run of the hub over a sequence of actions, collecting the delivered
messages tagged with their destination connection. -/
def runWSHub (hydrate : Str → List Str → Option (List compatRecord)) :
    wsHubState → List wsHubAction → wsHubState × List (Nat × wsDomainEventMessage)
  | st, [] => (st, [])
  | st, wsHubAction.dispatch domainEvent now :: rest =>
    let r := processDomainEvent hydrate now st domainEvent
    let rr := runWSHub hydrate r.1 rest
    (rr.1, r.2 ++ rr.2)
  | st, wsHubAction.setSubs connId chatIDs :: rest =>
    runWSHub hydrate (setSubscriptions st connId chatIDs) rest

theorem dropDuplicate_clients (st : wsHubState) (domainEvent : wsDomainEvent)
    (entries : List compatRecord) (now : Int) :
    (dropDuplicate st domainEvent entries now).2.clients = st.clients := rfl

theorem isWSSubscribed_iff {l : List Str} {chatID : Str} :
    isWSSubscribed l chatID = true
      ↔ wsWildcardSubscriptionChatID ∈ l ∨ chatID ∈ l := by
  rw [isWSSubscribed]
  by_cases h : l.length = 0
  · rw [if_pos h]
    have hnil : l = [] := List.length_eq_zero.mp h
    subst hnil
    simp
  · rw [if_neg h, List.any_eq_true]
    constructor
    · rintro ⟨x, hx, hpx⟩
      rcases of_decide_eq_true hpx with h1 | h1
      · exact Or.inl (h1 ▸ hx)
      · exact Or.inr (h1 ▸ hx)
    · rintro (h1 | h1)
      · exact ⟨wsWildcardSubscriptionChatID, h1, by simp⟩
      · exact ⟨chatID, h1, by simp⟩


/-- C2: for every domain event, the targeted connections are exactly the
currently-registered connections whose stored subscription matches the chat
ID: a wildcard entry matches every chat ID, an empty subscription matches
nothing, and otherwise a connection matches iff the chat ID is in its list;
when no registered connection matches, the event is skipped entirely before
any hydration work — the dispatch result is (unchanged state, no deliveries)
and is independent of the hydration oracle. -/
theorem subscribedTargets_exact :
    (∀ (clients : List (Nat × wsClientState)) (chatID : Str) (c : Nat × wsClientState),
      c ∈ subscribedTargets clients chatID
        ↔ c ∈ clients
          ∧ (wsWildcardSubscriptionChatID ∈ c.2.chatIDs ∨ chatID ∈ c.2.chatIDs))
    ∧ (∀ (clients : List (Nat × wsClientState)) (chatID : Str) (c : Nat × wsClientState),
        c ∈ clients → c.2.chatIDs = [] → c ∉ subscribedTargets clients chatID)
    ∧ (∀ (hydrate1 hydrate2 : Str → List Str → Option (List compatRecord))
        (now : Int) (st : wsHubState) (domainEvent : wsDomainEvent),
        subscribedTargets st.clients domainEvent.chatID = [] →
        processDomainEvent hydrate1 now st domainEvent = (st, [])
          ∧ processDomainEvent hydrate1 now st domainEvent
              = processDomainEvent hydrate2 now st domainEvent) := by
  have hmem : ∀ (clients : List (Nat × wsClientState)) (chatID : Str)
      (c : Nat × wsClientState),
      c ∈ subscribedTargets clients chatID
        ↔ c ∈ clients
          ∧ (wsWildcardSubscriptionChatID ∈ c.2.chatIDs ∨ chatID ∈ c.2.chatIDs) := by
    intro clients chatID c
    rw [subscribedTargets, List.mem_filter, isWSSubscribed_iff]
  have hskip : ∀ (hydrate : Str → List Str → Option (List compatRecord))
      (now : Int) (st : wsHubState) (domainEvent : wsDomainEvent),
      subscribedTargets st.clients domainEvent.chatID = [] →
      processDomainEvent hydrate now st domainEvent = (st, []) := by
    intro hydrate now st domainEvent h
    have hlen : (subscribedTargets st.clients domainEvent.chatID).length = 0 := by
      rw [h]; rfl
    simp only [processDomainEvent]
    rw [if_pos hlen]
  refine ⟨hmem, ?_, ?_⟩
  · intro clients chatID c hc hempty hin
    rcases ((hmem clients chatID c).mp hin).2 with h1 | h1 <;>
      { rw [hempty] at h1; cases h1 }
  · intro hydrate1 hydrate2 now st domainEvent h
    exact ⟨hskip hydrate1 now st domainEvent h,
      (hskip hydrate1 now st domainEvent h).trans
        (hskip hydrate2 now st domainEvent h).symm⟩

theorem subscribedTargets_exact_witness :
    processDomainEvent (fun _ _ => none) 5 (registerConnection newWSHubState 1)
        (wsDomainEvent.mk wsDomainTypeChatUpserted "!r1".toList ["!r1".toList])
      = (registerConnection newWSHubState 1, [])
    ∧ processDomainEvent (fun _ _ => none) 5 (registerConnection newWSHubState 1)
        (wsDomainEvent.mk wsDomainTypeChatUpserted "!r1".toList ["!r1".toList])
      = processDomainEvent (fun _ _ => some []) 5 (registerConnection newWSHubState 1)
        (wsDomainEvent.mk wsDomainTypeChatUpserted "!r1".toList ["!r1".toList]) :=
  subscribedTargets_exact.2.2 (fun _ _ => none) (fun _ _ => some []) 5
    (registerConnection newWSHubState 1)
    (wsDomainEvent.mk wsDomainTypeChatUpserted "!r1".toList ["!r1".toList])
    (by decide)

/-- C4: a message-upserted domain event with at least one matching connection
whose hydration errors or yields zero entries is dropped in that dispatch
cycle: no connection receives anything, no error reaches any client, and the
hub state (including the fingerprint cache) is left unchanged, so nothing is
retried. -/
theorem processDomainEvent_hydration_empty_drops
    (hydrate : Str → List Str → Option (List compatRecord))
    (now : Int) (st : wsHubState) (domainEvent : wsDomainEvent)
    (htype : domainEvent.type = wsDomainTypeMessageUpserted)
    (htargets : subscribedTargets st.clients domainEvent.chatID ≠ [])
    (hhyd : hydrate domainEvent.chatID domainEvent.ids = none
        ∨ hydrate domainEvent.chatID domainEvent.ids = some []) :
    processDomainEvent hydrate now st domainEvent = (st, []) := by
  have hlen : ¬((subscribedTargets st.clients domainEvent.chatID).length = 0) := by
    intro h0
    exact htargets (List.length_eq_zero.mp h0)
  have hnone : hydrateForEvent hydrate domainEvent = none := by
    rw [hydrateForEvent, if_pos htype]
    rcases hhyd with hh | hh
    · rw [hh]
    · rw [hh]
      rfl
  simp only [processDomainEvent]
  rw [if_neg hlen, hnone]

theorem processDomainEvent_hydration_empty_drops_witness :
    processDomainEvent (fun _ _ => none) 5
        (setSubscriptions (registerConnection newWSHubState 1) 1
          [wsWildcardSubscriptionChatID])
        (wsDomainEvent.mk wsDomainTypeMessageUpserted "!r1".toList ["$e1".toList])
      = (setSubscriptions (registerConnection newWSHubState 1) 1
          [wsWildcardSubscriptionChatID], []) :=
  processDomainEvent_hydration_empty_drops (fun _ _ => none) 5
    (setSubscriptions (registerConnection newWSHubState 1) 1
      [wsWildcardSubscriptionChatID])
    (wsDomainEvent.mk wsDomainTypeMessageUpserted "!r1".toList ["$e1".toList])
    (by decide) (by decide) (Or.inl rfl)


theorem map_fst_of_update (clients : List (Nat × wsClientState))
    (u : Nat × wsClientState → Nat × wsClientState)
    (hu : ∀ c, (u c).1 = c.1) :
    (clients.map u).map Prod.fst = clients.map Prod.fst := by
  induction clients with
  | nil => rfl
  | cons c rest ih => simp [hu c, ih]

theorem filterMap_if_filter_not_mem
    (p : wsClientState → Bool) (g : Nat × wsClientState → wsDomainEventMessage)
    {clients : List (Nat × wsClientState)} {connId : Nat}
    (hnot : connId ∉ clients.map Prod.fst) :
    (clients.filterMap (fun c => if p c.2 then some (c.1, g c) else none)).filter
        (fun m => m.1 = connId) = [] := by
  induction clients with
  | nil => rfl
  | cons c rest ih =>
    rw [List.map_cons] at hnot
    have hc : ¬(c.1 = connId) := fun h => hnot (h ▸ List.mem_cons_self _ _)
    have hrest : connId ∉ rest.map Prod.fst :=
      fun h => hnot (List.mem_cons_of_mem _ h)
    by_cases hp : p c.2
    · simp only [List.filterMap_cons, if_pos hp, List.filter_cons]
      have hd : (decide (c.1 = connId)) = false := by simp [hc]
      rw [hd, if_neg Bool.false_ne_true]
      exact ih hrest
    · simp only [List.filterMap_cons, if_neg hp]
      exact ih hrest

theorem filterMap_if_filter_key
    (p : wsClientState → Bool) (g : Nat × wsClientState → wsDomainEventMessage)
    {clients : List (Nat × wsClientState)} {connId : Nat} {cst : wsClientState}
    (hnd : (clients.map Prod.fst).Nodup) (hmem : (connId, cst) ∈ clients) :
    (clients.filterMap (fun c => if p c.2 then some (c.1, g c) else none)).filter
        (fun m => m.1 = connId)
      = if p cst then [(connId, g (connId, cst))] else [] := by
  induction clients with
  | nil => cases hmem
  | cons c rest ih =>
    rw [List.map_cons, List.nodup_cons] at hnd
    rcases List.mem_cons.mp hmem with hc | hc
    · subst hc
      have hnot : connId ∉ rest.map Prod.fst := hnd.1
      have htail := filterMap_if_filter_not_mem p g hnot
      by_cases hp : p cst
      · rw [if_pos hp]
        simp only [List.filterMap_cons, if_pos hp, List.filter_cons]
        simp [htail]
      · rw [if_neg hp]
        simp only [List.filterMap_cons, if_neg hp]
        exact htail
    · have hkey : connId ∈ rest.map Prod.fst :=
        List.mem_map.mpr ⟨(connId, cst), hc, rfl⟩
      have hc1 : ¬(c.1 = connId) := fun h => hnd.1 (h ▸ hkey)
      by_cases hp : p c.2
      · simp only [List.filterMap_cons, if_pos hp, List.filter_cons]
        have hd : (decide (c.1 = connId)) = false := by simp [hc1]
        rw [hd, if_neg Bool.false_ne_true]
        exact ih hnd.2 hc
      · simp only [List.filterMap_cons, if_neg hp]
        exact ih hnd.2 hc

theorem mem_map_update (clients : List (Nat × wsClientState)) (connId : Nat)
    (cst : wsClientState) (p : wsClientState → Bool)
    (bump : wsClientState → wsClientState)
    (hmem : (connId, cst) ∈ clients) :
    (connId, if p cst then bump cst else cst) ∈ clients.map (fun c =>
      if p c.2 then (c.1, bump c.2) else c) := by
  refine List.mem_map.mpr ⟨(connId, cst), hmem, ?_⟩
  by_cases hp : p cst <;> simp [hp]

theorem fanOutEvent_conn (now : Int) (st : wsHubState)
    (domainEvent : wsDomainEvent) (entries : List compatRecord)
    (connId : Nat) (cst : wsClientState)
    (hnd : (st.clients.map Prod.fst).Nodup) (hmem : (connId, cst) ∈ st.clients) :
    ∃ k cst2,
      ((fanOutEvent now st domainEvent entries).2.filter
          (fun m => m.1 = connId)).map (fun m => m.2.seq)
        = List.range' (cst.seq + 1) k
      ∧ cst2.seq = cst.seq + k
      ∧ (connId, cst2) ∈ (fanOutEvent now st domainEvent entries).1.clients
      ∧ ((fanOutEvent now st domainEvent entries).1.clients.map Prod.fst).Nodup := by
  have hkeys : ((fanOutEvent now st domainEvent entries).1.clients.map Prod.fst)
      = st.clients.map Prod.fst := by
    simp only [fanOutEvent]
    refine map_fst_of_update st.clients _ ?_
    intro c
    by_cases h : isWSSubscribed c.2.chatIDs domainEvent.chatID <;> simp [h]
  have hmsgs : (fanOutEvent now st domainEvent entries).2.filter
        (fun m => m.1 = connId)
      = if isWSSubscribed cst.chatIDs domainEvent.chatID then
          [(connId, { type := domainEvent.type, seq := cst.seq + 1, ts := now,
                      chatID := domainEvent.chatID, ids := domainEvent.ids,
                      entries := entries })]
        else [] := by
    simp only [fanOutEvent]
    exact filterMap_if_filter_key
      (fun s => isWSSubscribed s.chatIDs domainEvent.chatID)
      (fun c => { type := domainEvent.type, seq := c.2.seq + 1, ts := now,
                  chatID := domainEvent.chatID, ids := domainEvent.ids,
                  entries := entries })
      hnd hmem
  have hmem2 := mem_map_update st.clients connId cst
    (fun s => isWSSubscribed s.chatIDs domainEvent.chatID)
    (fun s => { s with seq := s.seq + 1 }) hmem
  by_cases hp : isWSSubscribed cst.chatIDs domainEvent.chatID
  · refine ⟨1, { cst with seq := cst.seq + 1 }, ?_, rfl, ?_, ?_⟩
    · rw [hmsgs, if_pos hp]
      simp
    · rw [if_pos hp] at hmem2
      exact hmem2
    · rw [hkeys]
      exact hnd
  · refine ⟨0, cst, ?_, rfl, ?_, ?_⟩
    · rw [hmsgs, if_neg hp]
      rfl
    · rw [if_neg hp] at hmem2
      exact hmem2
    · rw [hkeys]
      exact hnd

theorem setSubscriptions_keys (st : wsHubState) (cid2 : Nat) (ids : List Str) :
    (setSubscriptions st cid2 ids).clients.map Prod.fst
      = st.clients.map Prod.fst := by
  simp only [setSubscriptions]
  refine map_fst_of_update st.clients _ ?_
  intro c
  by_cases h : c.1 = cid2 <;> simp [h]

theorem setSubscriptions_conn {st : wsHubState} (cid2 : Nat) (ids : List Str)
    {connId : Nat} {cst : wsClientState} (hmem : (connId, cst) ∈ st.clients) :
    ∃ cst2, (connId, cst2) ∈ (setSubscriptions st cid2 ids).clients
      ∧ cst2.seq = cst.seq := by
  refine ⟨if connId = cid2 then { cst with chatIDs := ids } else cst, ?_, ?_⟩
  · refine List.mem_map.mpr ⟨(connId, cst), hmem, ?_⟩
    by_cases h : connId = cid2 <;> simp [h]
  · by_cases h : connId = cid2 <;> simp [h]

theorem processDomainEvent_conn
    (hydrate : Str → List Str → Option (List compatRecord)) (now : Int)
    (st : wsHubState) (domainEvent : wsDomainEvent)
    (connId : Nat) (cst : wsClientState)
    (hnd : (st.clients.map Prod.fst).Nodup) (hmem : (connId, cst) ∈ st.clients) :
    ∃ k cst2,
      ((processDomainEvent hydrate now st domainEvent).2.filter
          (fun m => m.1 = connId)).map (fun m => m.2.seq)
        = List.range' (cst.seq + 1) k
      ∧ cst2.seq = cst.seq + k
      ∧ (connId, cst2) ∈ (processDomainEvent hydrate now st domainEvent).1.clients
      ∧ ((processDomainEvent hydrate now st domainEvent).1.clients.map
          Prod.fst).Nodup := by
  simp only [processDomainEvent]
  by_cases hlen : (subscribedTargets st.clients domainEvent.chatID).length = 0
  · rw [if_pos hlen]
    exact ⟨0, cst, rfl, rfl, hmem, hnd⟩
  · rw [if_neg hlen]
    cases hh : hydrateForEvent hydrate domainEvent with
    | none => exact ⟨0, cst, rfl, rfl, hmem, hnd⟩
    | some entries =>
      dsimp only
      by_cases hdrop : (dropDuplicate st domainEvent entries now).1 = true
      · rw [if_pos hdrop]
        refine ⟨0, cst, rfl, rfl, ?_, ?_⟩
        · rw [dropDuplicate_clients]
          exact hmem
        · rw [dropDuplicate_clients]
          exact hnd
      · rw [if_neg hdrop]
        have hnd2 : ((dropDuplicate st domainEvent entries now).2.clients.map
            Prod.fst).Nodup := by
          rw [dropDuplicate_clients]
          exact hnd
        have hmem2 : (connId, cst)
            ∈ (dropDuplicate st domainEvent entries now).2.clients := by
          rw [dropDuplicate_clients]
          exact hmem
        exact fanOutEvent_conn now (dropDuplicate st domainEvent entries now).2
          domainEvent entries connId cst hnd2 hmem2

theorem runWSHub_conn (hydrate : Str → List Str → Option (List compatRecord))
    (actions : List wsHubAction) :
    ∀ (st : wsHubState) (connId : Nat) (cst : wsClientState),
      (st.clients.map Prod.fst).Nodup → (connId, cst) ∈ st.clients →
      ∃ k, ((runWSHub hydrate st actions).2.filter
          (fun m => m.1 = connId)).map (fun m => m.2.seq)
        = List.range' (cst.seq + 1) k := by
  induction actions with
  | nil =>
    intro st connId cst hnd hmem
    exact ⟨0, rfl⟩
  | cons action rest ih =>
    intro st connId cst hnd hmem
    cases action with
    | dispatch domainEvent now =>
      obtain ⟨k1, cst2, h1, h2, h3, h4⟩ :=
        processDomainEvent_conn hydrate now st domainEvent connId cst hnd hmem
      obtain ⟨k2, hrest⟩ :=
        ih (processDomainEvent hydrate now st domainEvent).1 connId cst2 h4 h3
      rw [h2] at hrest
      refine ⟨k2 + k1, ?_⟩
      simp only [runWSHub]
      rw [List.filter_append, List.map_append, h1, hrest,
        show cst.seq + k1 + 1 = cst.seq + 1 + k1 by omega,
        List.range'_append_1 (cst.seq + 1) k1 k2]
    | setSubs cid2 ids =>
      obtain ⟨cst2, hmem2, hseq⟩ :=
        setSubscriptions_conn cid2 ids hmem
      obtain ⟨k, hrest⟩ := ih (setSubscriptions st cid2 ids) connId cst2
        (by rw [setSubscriptions_keys]; exact hnd) hmem2
      rw [hseq] at hrest
      exact ⟨k, hrest⟩


/-- C1: over a freshly registered connection's lifetime, the seq values of the
domain-event messages delivered to it are exactly 1, 2, ..., k — the counter
starts at zero on registration, is incremented once per event delivered to
that connection, and the delivered seq values are strictly increasing with no
repeats; the statement holds for every connection independently, so two
connections receiving the same domain event get independent sequence
numbers. -/
theorem wsHub_seq_strictly_increasing
    (hydrate : Str → List Str → Option (List compatRecord))
    (actions : List wsHubAction) (st : wsHubState) (connId : Nat)
    (hfresh : connId ∉ st.clients.map Prod.fst)
    (hnd : (st.clients.map Prod.fst).Nodup) :
    ((runWSHub hydrate (registerConnection st connId) actions).2.filter
        (fun m => m.1 = connId)).map (fun m => m.2.seq)
      = List.range' 1
          (((runWSHub hydrate (registerConnection st connId) actions).2.filter
            (fun m => m.1 = connId)).map (fun m => m.2.seq)).length
    ∧ (((runWSHub hydrate (registerConnection st connId) actions).2.filter
        (fun m => m.1 = connId)).map (fun m => m.2.seq)).Pairwise (· < ·) := by
  have hnd2 : ((registerConnection st connId).clients.map Prod.fst).Nodup := by
    show ((st.clients ++ [(connId, _)]).map Prod.fst).Nodup
    rw [List.map_append, List.nodup_append]
    refine ⟨hnd, by simp, ?_⟩
    intro a ha hb
    simp only [List.map_cons, List.map_nil, List.mem_singleton] at hb
    exact hfresh (hb ▸ ha)
  have hmem : (connId, ({ seq := 0, chatIDs := [] } : wsClientState))
      ∈ (registerConnection st connId).clients :=
    List.mem_append_right _ (List.mem_singleton.mpr rfl)
  obtain ⟨k, hk⟩ := runWSHub_conn hydrate actions
    (registerConnection st connId) connId _ hnd2 hmem
  constructor
  · rw [hk]
    simp
  · rw [hk]
    simpa using List.pairwise_lt_range' 1 k


/-- Witness run: connection 7 registers, subscribes to the wildcard, then two
domain events are dispatched. -/
def seqWitnessActions : List wsHubAction :=
  [wsHubAction.setSubs 7 [wsWildcardSubscriptionChatID],
   wsHubAction.dispatch
     (wsDomainEvent.mk wsDomainTypeChatUpserted "!r1".toList ["!r1".toList]) 0,
   wsHubAction.dispatch
     (wsDomainEvent.mk wsDomainTypeChatDeleted "!r1".toList ["!r1".toList]) 100]

theorem wsHub_seq_strictly_increasing_witness :
    ((runWSHub (fun _ _ => some []) (registerConnection newWSHubState 7)
        seqWitnessActions).2.filter (fun m => m.1 = 7)).map (fun m => m.2.seq)
      = List.range' 1
          (((runWSHub (fun _ _ => some []) (registerConnection newWSHubState 7)
            seqWitnessActions).2.filter (fun m => m.1 = 7)).map
              (fun m => m.2.seq)).length
    ∧ (((runWSHub (fun _ _ => some []) (registerConnection newWSHubState 7)
        seqWitnessActions).2.filter (fun m => m.1 = 7)).map
          (fun m => m.2.seq)).Pairwise (· < ·) :=
  wsHub_seq_strictly_increasing (fun _ _ => some []) seqWitnessActions
    newWSHubState 7 (by decide) (by decide)


/-- The hub subscription lifecycle guarded by subscribeOnce
(server.go:672-673): never attempted, active, or permanently failed with the
cached error. sync.Once guarantees the guarded body runs at most once even
under concurrent first connections; the model runs invocations sequentially,
which is the order the Once imposes. -/
inductive SubscriptionState where
  | unattempted : SubscriptionState
  | active : SubscriptionState
  | failed (err : Str) : SubscriptionState
deriving DecidableEq

/-- Embedding of ensureSubscription (server.go:692-709). The oracle `outcome`
is the error SubscribeEvents would return if it were called (none = success).
Returns the new state, the error returned to the caller (h.subscribeErr), and
whether the subscribe call was actually made on this invocation. -/
def ensureSubscription (st : SubscriptionState) (outcome : Option Str) :
    SubscriptionState × Option Str × Bool :=
  match st with
  | .unattempted =>
    match outcome with
    | some err => (.failed err, some err, true)
    | none => (.active, none, true)
  | .active => (.active, none, false)
  | .failed err => (.failed err, some err, false)

/-- A sequence of connection attempts, each carrying the outcome the
subscribe call would have on that attempt; collects per-attempt results
(returned error, whether subscribe was called). -/
def runEnsureSubscription :
    SubscriptionState → List (Option Str) →
      SubscriptionState × List (Option Str × Bool)
  | st, [] => (st, [])
  | st, outcome :: rest =>
    let r := ensureSubscription st outcome
    let rr := runEnsureSubscription r.1 rest
    (rr.1, (r.2.1, r.2.2) :: rr.2)

theorem runEnsureSubscription_active (outcomes : List (Option Str)) :
    runEnsureSubscription SubscriptionState.active outcomes
      = (SubscriptionState.active, outcomes.map (fun _ => (none, false))) := by
  induction outcomes with
  | nil => rfl
  | cons o rest ih => simp [runEnsureSubscription, ensureSubscription, ih]

theorem runEnsureSubscription_failed (err : Str) (outcomes : List (Option Str)) :
    runEnsureSubscription (SubscriptionState.failed err) outcomes
      = (SubscriptionState.failed err,
         outcomes.map (fun _ => (some err, false))) := by
  induction outcomes with
  | nil => rfl
  | cons o rest ih => simp [runEnsureSubscription, ensureSubscription, ih]

/-- C8: hub initialization is one-shot with permanent failure caching: over
any sequence of connection attempts starting from the unattempted state, the
subscribe call is made at most once; and when the first attempt fails, every
subsequent attempt returns that same cached error without making another
subscribe call. -/
theorem ensureSubscription_once_cached :
    (∀ outcomes : List (Option Str),
      ((runEnsureSubscription SubscriptionState.unattempted outcomes).2.filter
        (fun r => r.2)).length ≤ 1)
    ∧ (∀ (err : Str) (rest : List (Option Str)),
      (runEnsureSubscription SubscriptionState.unattempted (some err :: rest)).2
        = (some err, true) :: rest.map (fun _ => (some err, false))) := by
  constructor
  · intro outcomes
    cases outcomes with
    | nil => decide
    | cons o rest =>
      cases o with
      | none =>
        simp [runEnsureSubscription, ensureSubscription,
          runEnsureSubscription_active, List.filter_map]
      | some err =>
        simp [runEnsureSubscription, ensureSubscription,
          runEnsureSubscription_failed, List.filter_map]
  · intro err rest
    simp [runEnsureSubscription, ensureSubscription,
      runEnsureSubscription_failed]
